import Mathlib

/-!
# Agent-configuration reconciler: `cmd/traffic/cmd/manager/mutator/watcher.go`

A shallow embedding of the watcher's snapshot store, update coalescer, Service
impact analyzer and rollout engine, followed by theorems about them.

Conventions of the embedding

* A Go `map[string]V` is an association list with pairwise distinct keys
  (`GoMap V`).  A `range` loop over a map visits the entries in the order of
  the list; since every list order is a value of the type, a theorem for all
  maps covers every iteration order the Go runtime may choose.
* A `nil` map is `none` where the source distinguishes it; reading a `nil`
  map behaves like reading an empty one.
* Tracing spans, trace links and log lines carry no behaviour and are left
  out.
* Code of other packages (the YAML codec, the agent-container generator, the
  cluster API) enters as parameters.
-/

namespace Mutator

/-- A Go `map[string]V`. -/
abbrev GoMap (α : Type) := AList (fun _ : String => α)

/-- The Go expression `m[k]` for a `map[string]string`: the zero value `""`
when the key is absent. -/
def GoMap.index (m : GoMap String) (k : String) : String :=
  (m.lookup k).getD ""

/-- The `entry` struct (`name`, `namespace`, `value`); the field `namespace`
is spelled `ns`. -/
structure entry where
  name : String
  ns : String
  value : String
deriving DecidableEq, Repr

/-- The `configUpdater` struct: the per-namespace coalescing unit.
`addToSnapshot` is a `map[string]struct{}`, kept as the list of its keys. -/
structure configUpdater where
  ns : String
  addToSnapshot : List String
  Config : GoMap String
  Updated : Bool

/-- The `configWatcher` struct: the snapshot `data` and the updaters
registry `configUpdaters`. -/
structure configWatcher where
  data : GoMap (GoMap String)
  configUpdaters : GoMap configUpdater

/-- The result of `configWatcher.update`: the watcher afterwards and the two
slices handed to `writeToChan` for `delCh` and `modCh`. -/
structure UpdateOut where
  cw : configWatcher
  dels : List entry
  mods : List entry

/-- One iteration of the first loop of `update`:
`if _, ok := m[k]; !ok { delete(data, k); dels = append(dels, entry{...}) }`. -/
def updateDelStep (ns : String) (m : GoMap String)
    (acc : GoMap String × List entry) (kv : (_ : String) × String) :
    GoMap String × List entry :=
  match m.lookup kv.1 with
  | some _ => acc
  | none => (acc.1.erase kv.1, acc.2 ++ [⟨kv.1, ns, kv.2⟩])

/-- One iteration of the second loop of `update`:
`if ov, ok := data[k]; !ok || ov != v { mods = append(mods, entry{...}); data[k] = v }`. -/
def updateModStep (ns : String)
    (acc : GoMap String × List entry) (kv : (_ : String) × String) :
    GoMap String × List entry :=
  match acc.1.lookup kv.1 with
  | some ov =>
    if ov != kv.2 then (acc.1.insert kv.1 kv.2, acc.2 ++ [⟨kv.1, ns, kv.2⟩]) else acc
  | none => (acc.1.insert kv.1 kv.2, acc.2 ++ [⟨kv.1, ns, kv.2⟩])

/-- The method `configWatcher.update(ctx, ns, m)`.  `m = none` is the `nil` map
passed by the delete handler. -/
def configWatcher.update (c : configWatcher) (ns : String) (m : Option (GoMap String)) :
    UpdateOut :=
  let data := (c.data.lookup ns).getD ∅
  let mm := m.getD ∅
  let r1 := data.entries.foldl (updateDelStep ns mm) (data, [])
  let r2 := mm.entries.foldl (updateModStep ns) (r1.1, [])
  { cw := { c with data := c.data.insert ns r2.1 }, dels := r1.2, mods := r2.2 }

/-! ### The agent configuration and its codec (package `agentconfig`) -/

/-- The struct `agentconfig.Intercept`, reduced to the field the watcher reads. -/
structure agentconfig.Intercept where
  ServiceUID : String
deriving DecidableEq, Repr

/-- The struct `agentconfig.Container`: the per-app-container decisions. -/
structure agentconfig.Container where
  Name : String
  Replace : Bool
  Intercepts : List agentconfig.Intercept
deriving DecidableEq, Repr

/-- The struct `agentconfig.Sidecar`, reduced to the fields the watcher reads.
A `SidecarExt` is identified with the `Sidecar` its `AgentConfig()` returns. -/
structure agentconfig.Sidecar where
  AgentName : String
  Namespace : String
  WorkloadName : String
  WorkloadKind : String
  Manual : Bool
  Create : Bool
  Containers : List agentconfig.Container
deriving DecidableEq, Repr

/-- The YAML codec of package `agentconfig`: `UnmarshalYAML` (`none` is a decode
error) and `SidecarExt.Marshal`. -/
structure Codec where
  UnmarshalYAML : String → Option agentconfig.Sidecar
  Marshal : agentconfig.Sidecar → Except String String

/-- The constant `agentconfig.ConfigMap`, the name of the configuration document. -/
def agentconfig.ConfigMap : String := "telepresence-agents"

/-! ### The update coalescer -/

/-- What `getter.Get(agentconfig.ConfigMap)` answers: the document with its `Data`
(a `nil` `Data` reads as the empty map), a not-found error, or another error. -/
inductive GetResult where
  | found (Data : GoMap String)
  | notFound
  | failed (err : String)

/-- A call on the configuration document of a namespace: the lister `Get`, and
the `Create` and `Update` of the core API with the `Data` they carry. -/
inductive ApiCall where
  | Get (ns : String)
  | Create (ns : String) (Data : GoMap String)
  | Update (ns : String) (Data : GoMap String)

/-- The function `createConfigUpdater`. -/
def createConfigUpdater (ns : String) : configUpdater :=
  { ns := ns, addToSnapshot := [], Config := ∅, Updated := false }

/-- The method `configUpdater.AddToSnapshot`. -/
def configUpdater.AddToSnapshot (c : configUpdater) (agentName : String) : configUpdater :=
  { c with addToSnapshot := agentName :: c.addToSnapshot }

/-- The test `err == nil && scx.AgentConfig().Manual` on a pending value. -/
def decodesToManual (codec : Codec) (yml : String) : Bool :=
  match codec.UnmarshalYAML yml with
  | some scx => scx.Manual
  | none => false

/-- One iteration of the loop `for agentName, yml := range c.Config` of
`updateConfigMap`.  The accumulator is `cmData` and the snapshot `c.cw.data`;
`docData` is `cm.Data` as read from the document. -/
def updateConfigMapStep (codec : Codec) (ns : String) (docData : GoMap String)
    (addToSnapshot : List String)
    (acc : GoMap String × GoMap (GoMap String)) (kv : (_ : String) × String) :
    GoMap String × GoMap (GoMap String) :=
  if decodesToManual codec kv.2 then acc
  else if docData.index kv.1 == kv.2 then acc
  else
    let cmData := acc.1.insert kv.1 kv.2
    if kv.1 ∈ addToSnapshot then
      let nm := (acc.2.lookup ns).getD ∅
      (cmData, acc.2.insert ns (nm.insert kv.1 kv.2))
    else (cmData, acc.2)

/-- The result of `configUpdater.updateConfigMap`: the watcher and the updater
afterwards, the calls made on the document, and the returned error. -/
structure UpdaterOut where
  cw : configWatcher
  cu : configUpdater
  calls : List ApiCall
  err : Option String

/-- The method `configUpdater.updateConfigMap`.  `get` is the answer of the lister
and `writeErr` the error of the `Create` or `Update` call.  The deferred removal
from the registry runs on every path; `Updated` is set on the paths that took the
updater lock. -/
def configUpdater.updateConfigMap (codec : Codec) (get : GetResult) (writeErr : Option String)
    (cw : configWatcher) (c : configUpdater) : UpdaterOut :=
  match get with
  | .failed e =>
    { cw := { cw with configUpdaters := cw.configUpdaters.erase c.ns }
      cu := c
      calls := [.Get c.ns]
      err := some ("unable to get ConfigMap " ++ agentconfig.ConfigMap ++ ": " ++ e) }
  | .notFound =>
    let r := c.Config.entries.foldl (updateConfigMapStep codec c.ns ∅ c.addToSnapshot)
      ((cw.data.lookup c.ns).getD ∅, cw.data)
    { cw := { data := r.2, configUpdaters := cw.configUpdaters.erase c.ns }
      cu := { c with Updated := true }
      calls := [.Get c.ns, .Create c.ns r.1]
      err := writeErr }
  | .found docData =>
    let r := c.Config.entries.foldl (updateConfigMapStep codec c.ns docData c.addToSnapshot)
      ((cw.data.lookup c.ns).getD ∅, cw.data)
    { cw := { data := r.2, configUpdaters := cw.configUpdaters.erase c.ns }
      cu := { c with Updated := true }
      calls := [.Get c.ns, .Update c.ns r.1]
      err := writeErr }

/-- How a call of `store` ends in a run without other goroutines: it returns an
error value; or it has joined an updater that another caller started and blocks
in `cu.Wait()`; or it found an updater that is already `Updated` and goes round
the loop again. -/
inductive StoreStatus where
  | returned (err : Option String)
  | waiting
  | retry

/-- The result of `store`: the watcher afterwards, the calls made on the
configuration document, and how the call ended. -/
structure StoreOut where
  cw : configWatcher
  calls : List ApiCall
  status : StoreStatus

/-- The method `configWatcher.store(ctx, acx, updateSnapshot)`, run without
interleaving: when the call creates the updater (`newGroup`), the goroutine
`cu.updateConfigMap` runs to its end before `cu.Wait()` returns. -/
def configWatcher.store (codec : Codec) (get : GetResult) (writeErr : Option String)
    (c : configWatcher) (acx : agentconfig.Sidecar) (updateSnapshot : Bool) : StoreOut :=
  match codec.Marshal acx with
  | .error err => { cw := c, calls := [], status := .returned (some err) }
  | .ok yml =>
    let eq :=
      match c.data.lookup acx.Namespace with
      | some nm => nm.index acx.AgentName == yml
      | none => false
    if eq then { cw := c, calls := [], status := .returned none }
    else
      match c.configUpdaters.lookup acx.Namespace with
      | none =>
        let cu := createConfigUpdater acx.Namespace
        let c1 := { c with configUpdaters := c.configUpdaters.insert acx.Namespace cu }
        let cu1 := { cu with Config := cu.Config.insert acx.AgentName yml }
        let cu2 := if updateSnapshot then cu1.AddToSnapshot acx.AgentName else cu1
        let c2 := { c1 with configUpdaters := c1.configUpdaters.insert acx.Namespace cu2 }
        let r := cu2.updateConfigMap codec get writeErr c2
        { cw := r.cw, calls := r.calls, status := .returned r.err }
      | some cu =>
        if cu.Updated then { cw := c, calls := [], status := .retry }
        else
          let cu1 := { cu with Config := cu.Config.insert acx.AgentName yml }
          let cu2 := if updateSnapshot then cu1.AddToSnapshot acx.AgentName else cu1
          { cw := { c with configUpdaters := c.configUpdaters.insert acx.Namespace cu2 }
            calls := []
            status := .waiting }

/-- A codec on two documents of the agent `legacy` in namespace `demo`, used to
run the code on concrete inputs: `"legacy: manual"` is the hand-written entry and
`"legacy: generated"` the generated one. -/
def demoCodec : Codec where
  UnmarshalYAML s :=
    if s = "legacy: manual" then
      some ⟨"legacy", "demo", "legacy", "Deployment", true, false, []⟩
    else if s = "legacy: generated" then
      some ⟨"legacy", "demo", "legacy", "Deployment", false, false, []⟩
    else none
  Marshal ac := .ok (if ac.Manual then "legacy: manual" else "legacy: generated")

/-- The watcher of namespace `demo` whose snapshot holds the manual entry `legacy`. -/
def demoWatcher : configWatcher where
  data := AList.insert "demo" (AList.insert "legacy" "legacy: manual" ∅) ∅
  configUpdaters := ∅

/-! ### Workloads, Services and the Service watcher -/

/-- The struct `v1.ReplicaSet`, reduced to `Spec.Replicas` (a `*int32`, `none`
is `nil`). -/
structure v1.ReplicaSet where
  Replicas : Option Int
deriving DecidableEq, Repr

/-- The interface `k8sapi.Workload` through the getters the watcher calls:
`GetName`, `GetNamespace`, `GetKind`, `GetPodTemplate().Labels`, and
`k8sapi.ReplicaSetImpl` (`ReplicaSet = none` when the workload is not a
ReplicaSet). -/
structure Workload where
  Name : String
  Namespace : String
  Kind : String
  PodTemplateLabels : GoMap String
  ReplicaSet : Option v1.ReplicaSet

/-- The struct `core.Service`, reduced to `UID`, `Namespace` and `Spec.Selector`. -/
structure core.Service where
  UID : String
  Namespace : String
  Selector : GoMap String

/-- The cluster as the analyzer reads it: `tracing.GetWorkload(ctx, name,
namespace, kind)` and the label match
`labels.SelectorFromSet(selector).Matches(labels.Set(podLabels))`. -/
structure Cluster where
  GetWorkload : String → String → String → Except String Workload
  Matches : GoMap String → GoMap String → Bool

/-- The struct `affectedConfig` (`err`, `wl`, `scx`); `none` is `nil`. -/
structure affectedConfig where
  err : Option String
  wl : Option Workload
  scx : agentconfig.Sidecar

/-- The closure `references` of `configsAffectedBySvc`, returning the triple
`(k8sapi.Workload, error, bool)`. -/
def references (cl : Cluster) (svc : core.Service) (trustUID : Bool)
    (ac : agentconfig.Sidecar) : Option Workload × Option String × Bool :=
  if ac.Containers.any (fun cn => cn.Intercepts.any (fun ic => ic.ServiceUID == svc.UID)) then
    (none, none, true)
  else if trustUID then
    (none, none, false)
  else
    match cl.GetWorkload ac.WorkloadName ac.Namespace ac.WorkloadKind with
    | .error err => (none, some err, false)
    | .ok wl => (some wl, none, cl.Matches svc.Selector wl.PodTemplateLabels)

/-- One iteration of the loop `for _, cfg := range nsData` of
`configsAffectedBySvc`. -/
def configsAffectedStep (codec : Codec) (cl : Cluster) (svc : core.Service) (trustUID : Bool)
    (affected : List affectedConfig) (kv : (_ : String) × String) : List affectedConfig :=
  match codec.UnmarshalYAML kv.2 with
  | none => affected
  | some scx =>
    match references cl svc trustUID scx with
    | (wl, err, true) => affected ++ [{ scx := scx, wl := wl, err := err }]
    | (_, _, false) => affected

/-- The method `configWatcher.configsAffectedBySvc(ctx, nsData, svc, trustUID)`. -/
def configsAffectedBySvc (codec : Codec) (cl : Cluster) (nsData : GoMap String)
    (svc : core.Service) (trustUID : Bool) : List affectedConfig :=
  nsData.entries.foldl (configsAffectedStep codec cl svc trustUID) []

/-- Condition (a) of the impact analysis, in the words of the specification: some
intercept of some container of the config references the UID of the Service. -/
def referencesUID (svc : core.Service) (ac : agentconfig.Sidecar) : Prop :=
  ∃ cn ∈ ac.Containers, ∃ ic ∈ cn.Intercepts, ic.ServiceUID = svc.UID

/-- Condition (b) of the impact analysis, in the words of the specification:
`trustUID` is false and the selector of the Service matches the pod template
labels of the workload of the config (`wl` is that workload). -/
def selectsWorkload (cl : Cluster) (svc : core.Service) (trustUID : Bool)
    (ac : agentconfig.Sidecar) (wl : Workload) : Prop :=
  trustUID = false ∧
  cl.GetWorkload ac.WorkloadName ac.Namespace ac.WorkloadKind = .ok wl ∧
  cl.Matches svc.Selector wl.PodTemplateLabels = true

/-- An object handed to an informer event handler: a `*core.Service`, a
`*cache.DeletedFinalStateUnknown` wrapping an object, or anything else. -/
inductive InformerObj where
  | service (svc : core.Service)
  | deletedFinalStateUnknown (Obj : InformerObj)
  | other

/-- An event of the Service informer, for `AddFunc`, `UpdateFunc` and
`DeleteFunc`. -/
inductive ServiceEvent where
  | add (obj : InformerObj)
  | update (oldObj newObj : InformerObj)
  | delete (obj : InformerObj)

/-- The handlers that `configWatcher.watchServices` registers, as the list of
calls `c.updateSvc(ctx, svc, trustUID)` each event leads to. -/
def watchServices : ServiceEvent → List (core.Service × Bool)
  | .add (.service svc) => [(svc, false)]
  | .add _ => []
  | .delete (.service svc) => [(svc, true)]
  | .delete (.deletedFinalStateUnknown (.service svc)) => [(svc, true)]
  | .delete _ => []
  | .update _ (.service newSvc) => [(newSvc, true)]
  | .update _ _ => []

/-! ### The rollout engine -/

/-- The struct `core.Container`, reduced to `Name`, `Image` and `Args`. -/
structure core.Container where
  Name : String
  Image : String
  Args : List String
deriving DecidableEq, Repr

/-- The struct `core.ContainerStatus`, reduced to `State.Running`: `none` when the
pointer is `nil`, otherwise `StartedAt` as the time elapsed since the zero
`meta.Time` (so `StartedAt.IsZero()` is `StartedAt = 0`). -/
structure core.ContainerStatus where
  Running : Option Nat
deriving DecidableEq, Repr

/-- The struct `core.Pod`, reduced to its name, `Spec.Containers` and
`Status.ContainerStatuses`. -/
structure core.Pod where
  Name : String
  Containers : List core.Container
  ContainerStatuses : List core.ContainerStatus
deriving DecidableEq, Repr

/-- What `isRolloutNeeded` takes from other packages and files: the pod listing
`k8sapi.Pods(ctx, namespace, labels)` (each object as `k8sapi.PodImpl` sees it,
`none` when it is not a pod), the generator `agentconfig.AgentContainer(ctx, pod,
ac)`, the comparison `containerEqual`, and the constants
`agentconfig.ContainerName`, `sleeperImage` and `sleeperArgs`. -/
structure RolloutEnv where
  Pods : String → GoMap String → Except String (List (Option core.Pod))
  AgentContainer : core.Pod → agentconfig.Sidecar → core.Container
  containerEqual : core.Container → core.Container → Bool
  ContainerName : String
  sleeperImage : String
  sleeperArgs : List String

/-- The function `agentContainer(pod)`: the first container named
`agentconfig.ContainerName`. -/
def agentContainer (env : RolloutEnv) (pod : core.Pod) : Option core.Container :=
  pod.Containers.find? (fun cn => cn.Name == env.ContainerName)

/-- The function `isPodRunning(pod)`. -/
def isPodRunning (pod : core.Pod) : Bool :=
  pod.ContainerStatuses.any (fun cn =>
    match cn.Running with
    | some startedAt => startedAt != 0
    | none => false)

/-- The test `found.Image == sleeperImage && slices.Equal(found.Args, sleeperArgs)`. -/
def isDisabled (env : RolloutEnv) (found : core.Container) : Bool :=
  found.Image == env.sleeperImage && found.Args == env.sleeperArgs

/-- The body of the loop `for _, cn := range ac.Containers` of `isRolloutNeeded`:
`true` when the iteration executes `return true`. -/
def containerNeedsRollout (env : RolloutEnv) (pod : core.Pod) (cn : agentconfig.Container) :
    Bool :=
  match pod.Containers.find? (fun c => c.Name == cn.Name) with
  | none => true
  | some found => if cn.Replace then !(isDisabled env found) else isDisabled env found

/-- The body of the loop over the running pods of `isRolloutNeeded`, after
`runningPods++`: `true` when the iteration executes `return true`. -/
def podNeedsRollout (env : RolloutEnv) (ac : Option agentconfig.Sidecar) (pod : core.Pod) :
    Bool :=
  match ac, agentContainer env pod with
  | none, none => false
  | none, some _ => true
  | some _, none => true
  | some ac, some podAc =>
    if !(env.containerEqual podAc (env.AgentContainer pod ac)) then true
    else ac.Containers.any (containerNeedsRollout env pod)

/-- The loop `for _, podObj := range pods` of `isRolloutNeeded`: `none` when an
iteration returns `true`, otherwise the final value of `runningPods`. -/
def countRunningPods (env : RolloutEnv) (ac : Option agentconfig.Sidecar) :
    List (Option core.Pod) → Nat → Option Nat
  | [], runningPods => some runningPods
  | podObj :: pods, runningPods =>
    match podObj with
    | none => countRunningPods env ac pods runningPods
    | some pod =>
      if !(isPodRunning pod) then countRunningPods env ac pods runningPods
      else if podNeedsRollout env ac pod then none
      else countRunningPods env ac pods (runningPods + 1)

/-- The function `isRolloutNeeded(ctx, wl, ac)`; `ac = none` is the `nil` config. -/
def isRolloutNeeded (env : RolloutEnv) (wl : Workload) (ac : Option agentconfig.Sidecar) :
    Bool :=
  if wl.PodTemplateLabels.entries.length == 0 then true
  else
    match env.Pods wl.Namespace wl.PodTemplateLabels with
    | .error _ => true
    | .ok pods =>
      match countRunningPods env ac pods 0 with
      | none => true
      | some runningPods => runningPods == 0 && ac.isSome

/-- The pods of a listing that the loop of `isRolloutNeeded` counts: the objects
that are pods and for which `isPodRunning` holds. -/
def runningPods (pods : List (Option core.Pod)) : List core.Pod :=
  pods.filterMap (fun podObj =>
    match podObj with
    | some pod => if isPodRunning pod then some pod else none
    | none => none)

/-- The checks of the loop body of `isRolloutNeeded` that a pod passes, as a
proposition over the lookups `agentContainer` and `find?` of the code. -/
def podMatchesConfig (env : RolloutEnv) (ac : Option agentconfig.Sidecar) (pod : core.Pod) :
    Prop :=
  match ac with
  | none => agentContainer env pod = none
  | some ac =>
    (∃ podAc, agentContainer env pod = some podAc ∧
      env.containerEqual podAc (env.AgentContainer pod ac) = true) ∧
    ∀ cn ∈ ac.Containers, ∃ found,
      pod.Containers.find? (fun c => c.Name == cn.Name) = some found ∧
      (found.Image = env.sleeperImage ∧ found.Args = env.sleeperArgs ↔ cn.Replace = true)

/-- The body of a `wl.Patch(ctx, types.StrategicMergePatchType, ...)` call:
the scaling patch that sets `spec.replicas`, or the patch that sets the annotation
`<DomainPrefix>restartedAt` of the pod template to a time stamp. -/
inductive Patch where
  | replicas (n : Int)
  | restartedAt (domainPrefix time : String)
deriving DecidableEq, Repr

/-- What a `k8sapi.GetReplicaSet` call shows: an error, or the `spec.replicas` of
the ReplicaSet it returned. -/
inductive Observed where
  | failed (err : String)
  | replicas (n : Option Int)
deriving DecidableEq, Repr

/-- What the rollout does to the cluster, in order: a `Patch` call, a
`k8sapi.GetReplicaSet` call with what it observed, a `dtime.SleepWithContext` of
300 ms, and a `dlog.Error` line. -/
inductive Event where
  | patch (p : Patch)
  | fetch (observed : Observed)
  | sleep
  | logError
deriving DecidableEq, Repr

/-- The answers of the cluster to the rollout: the error of the `i`-th `Patch`
call (`none` is success), the answer of the `i`-th `GetReplicaSet` call, the
constant `DomainPrefix` and the reading of `time.Now()` in RFC 3339. -/
structure World where
  patchErr : Nat → Option String
  GetReplicaSet : Nat → Except String v1.ReplicaSet
  DomainPrefix : String
  now : String

/-- The result of the closure `waitForReplicaCount`: whether it returned `nil`, the
events it produced, and the number of `GetReplicaSet` calls made so far. -/
structure WaitOut where
  ok : Bool
  events : List Event
  fetched : Nat
deriving DecidableEq, Repr

/-- The closure `waitForReplicaCount(count)` of `triggerRolloutReplicaSet`, with
`retries` iterations left (200 at the call) and `fetched` calls of
`GetReplicaSet` made before. -/
def waitForReplicaCount (w : World) (count : Int) : (retries : Nat) → (fetched : Nat) → WaitOut
  | 0, fetched => { ok := false, events := [], fetched := fetched }
  | retries + 1, fetched =>
    match w.GetReplicaSet fetched with
    | .ok rs =>
      if rs.Replicas == some count then
        { ok := true, events := [.fetch (.replicas rs.Replicas)], fetched := fetched + 1 }
      else
        let r := waitForReplicaCount w count retries (fetched + 1)
        { r with events := .fetch (.replicas rs.Replicas) :: .sleep :: r.events }
    | .error err =>
      let r := waitForReplicaCount w count retries (fetched + 1)
      { r with events := .fetch (.failed err) :: .sleep :: r.events }

/-- The function `triggerRolloutReplicaSet(ctx, wl, rs, span)`.  The error of the
second `Patch` call is logged and the function goes on to the second
`waitForReplicaCount`, as the source does. -/
def triggerRolloutReplicaSet (w : World) (rs : v1.ReplicaSet) : List Event :=
  let replicas : Int := rs.Replicas.getD 1
  if replicas == 0 then []
  else
    match w.patchErr 0 with
    | some _ => [.patch (.replicas 0), .logError]
    | none =>
      let r0 := waitForReplicaCount w 0 200 0
      if !r0.ok then .patch (.replicas 0) :: r0.events ++ [.logError]
      else
        let scaleBack : List Event :=
          match w.patchErr 1 with
          | some _ => [.patch (.replicas replicas), .logError]
          | none => [.patch (.replicas replicas)]
        let r1 := waitForReplicaCount w replicas 200 r0.fetched
        .patch (.replicas 0) :: r0.events ++ scaleBack ++ r1.events ++
          (if r1.ok then [] else [.logError])

/-- The function `triggerRollout(ctx, wl, ac)`. -/
def triggerRollout (env : RolloutEnv) (w : World) (wl : Workload)
    (ac : Option agentconfig.Sidecar) : List Event :=
  if !(isRolloutNeeded env wl ac) then []
  else
    match wl.ReplicaSet with
    | some rs => triggerRolloutReplicaSet w rs
    | none =>
      match w.patchErr 0 with
      | some _ => [.patch (.restartedAt w.DomainPrefix w.now), .logError]
      | none => [.patch (.restartedAt w.DomainPrefix w.now)]

/-- The `Patch` calls of a run, in order. -/
def patchesOf (events : List Event) : List Patch :=
  events.filterMap (fun e =>
    match e with
    | .patch p => some p
    | _ => none)

/-! ### Concrete inputs -/

/-- Two pods: the running `web-1` without an agent container and the not yet
started `web-2` with one. -/
def demoPods : List (Option core.Pod) :=
  [ some ⟨"web-1", [⟨"app", "nginx", []⟩], [⟨some 5⟩]⟩,
    some ⟨"web-2", [⟨"app", "nginx", []⟩, ⟨"traffic-agent", "tel2", []⟩], [⟨none⟩]⟩ ]

/-- A rollout environment in which every pod listing answers `demoPods`. -/
def demoRolloutEnv : RolloutEnv where
  Pods _ _ := .ok demoPods
  AgentContainer _ _ := ⟨"traffic-agent", "tel2", []⟩
  containerEqual a b := a == b
  ContainerName := "traffic-agent"
  sleeperImage := "sleeper"
  sleeperArgs := ["sleep", "infinity"]

/-- The Deployment `web.demo` with the pod template label `app: web`. -/
def demoDeployment : Workload :=
  ⟨"web", "demo", "Deployment", AList.insert "app" "web" ∅, none⟩

/-- The ReplicaSet `rs.demo` with `replicas = 3` and the pod template label
`app: rs`. -/
def demoReplicaSet : Workload :=
  ⟨"rs", "demo", "ReplicaSet", AList.insert "app" "rs" ∅, some ⟨some 3⟩⟩

/-- The generated config of the agent `rs` in `demo`. -/
def demoSidecar : agentconfig.Sidecar :=
  ⟨"rs", "demo", "rs", "ReplicaSet", false, false, []⟩

/-- A cluster in which every `Patch` succeeds and the ReplicaSet is seen with
zero replicas by the first `GetReplicaSet` call and with three by the later ones. -/
def demoWorld : World where
  patchErr _ := none
  GetReplicaSet i := if i = 0 then .ok ⟨some 0⟩ else .ok ⟨some 3⟩
  DomainPrefix := "telepresence.getambassador.io/"
  now := "2024-01-01T00:00:00Z"

/-- The cluster of `demoWorld`, except that the second `Patch` call (the scale
back) fails. -/
def failingScaleBackWorld : World where
  patchErr i := if i = 1 then some "scale back refused" else none
  GetReplicaSet i := if i = 0 then .ok ⟨some 0⟩ else .ok ⟨some 3⟩
  DomainPrefix := "telepresence.getambassador.io/"
  now := "2024-01-01T00:00:00Z"

/-! ### Removal, the event handlers and `updateSvc` -/

/-- The create-or-update calls among the calls made on a configuration document. -/
def writesOf (calls : List ApiCall) : List ApiCall :=
  calls.filter (fun call =>
    match call with
    | .Get _ => false
    | .Create _ _ => true
    | .Update _ _ => true)

/-- A watcher with an empty snapshot and an empty registry, as `NewWatcher`
returns it. -/
def NewWatcher : configWatcher where
  data := ∅
  configUpdaters := ∅

/-- The result of `remove`: the watcher afterwards, the calls made on the
configuration document, and the returned error. -/
structure RemoveOut where
  cw : configWatcher
  calls : List ApiCall
  err : Option String

/-- The method `configWatcher.remove(ctx, name, namespace)`.  `get` is the answer
of the lister and `updateErr` the error of the `Update` call.  The method reads and
writes the document only; it has no statement that touches `c.data`. -/
def configWatcher.remove (codec : Codec) (get : GetResult) (updateErr : Option String)
    (c : configWatcher) (name ns : String) : RemoveOut :=
  match get with
  | .failed e =>
    { cw := c, calls := [.Get ns]
      err := some ("unable to get ConfigMap " ++ agentconfig.ConfigMap ++ ": " ++ e) }
  | .notFound => { cw := c, calls := [.Get ns], err := none }
  | .found docData =>
    match docData.lookup name with
    | none => { cw := c, calls := [.Get ns], err := none }
    | some yml =>
      match codec.UnmarshalYAML yml with
      | none => { cw := c, calls := [.Get ns], err := some "cannot unmarshal agent config" }
      | some scx =>
        if scx.Manual then { cw := c, calls := [.Get ns], err := none }
        else
          { cw := c, calls := [.Get ns, .Update ns (docData.erase name)], err := updateErr }

/-- What the handlers take from other packages: the cluster, the test
`errors.IsNotFound` on a lookup error, `managerutil.GetAgentImage(ctx)`, and
`agentmap.GeneratorConfigFunc(img)` whose result is the function
`gc.Generate(ctx, wl, ac)`. -/
structure HandlerEnv where
  cluster : Cluster
  IsNotFound : String → Bool
  GetAgentImage : String
  GeneratorConfigFunc : String →
    Except String (Workload → agentconfig.Sidecar → Except String agentconfig.Sidecar)

/-- The result of `entry.workload(ctx)`: the decode error made by `fmt.Errorf` (never
a not-found error), the error of `tracing.GetWorkload`, or the config and the
workload. -/
inductive WorkloadResult where
  | decodeFailed
  | lookupFailed (err : String)
  | ok (scx : agentconfig.Sidecar) (wl : Workload)

/-- The method `entry.workload(ctx)`. -/
def entry.workload (codec : Codec) (cl : Cluster) (e : entry) : WorkloadResult :=
  match codec.UnmarshalYAML e.value with
  | none => .decodeFailed
  | some ac =>
    match cl.GetWorkload ac.WorkloadName ac.Namespace ac.WorkloadKind with
    | .error err => .lookupFailed err
    | .ok wl => .ok ac wl

/-- A call a handler makes on the rest of the reconciler: `c.store`, `c.remove`,
the hooks `c.self.OnAdd` and `c.self.OnDelete`, and `triggerRollout`. -/
inductive HandlerCall where
  | store (acx : agentconfig.Sidecar) (updateSnapshot : Bool)
  | remove (name ns : String)
  | OnAdd (wl : Workload) (scx : agentconfig.Sidecar)
  | OnDelete (name ns : String)
  | triggerRollout (wl : Workload) (ac : Option agentconfig.Sidecar)

/-- The method `configWatcher.handleAdd(ctx, e)`, as the calls it makes. -/
def handleAdd (codec : Codec) (env : HandlerEnv) (e : entry) : List HandlerCall :=
  match e.workload codec env.cluster with
  | .decodeFailed => []
  | .lookupFailed _ => []
  | .ok scx wl =>
    if scx.Manual then []
    else if scx.Create then
      let img := env.GetAgentImage
      if img == "" then []
      else
        match env.GeneratorConfigFunc img with
        | .error _ => []
        | .ok gc =>
          match gc wl scx with
          | .error _ => []
          | .ok acx => [.store acx false]
    else [.OnAdd wl scx]

/-- The method `configWatcher.handleDelete(ctx, e)`, as the calls it makes.  After a
not-found lookup error the method has no decoded config and no workload and goes on
to the `OnDelete` hook. -/
def handleDelete (codec : Codec) (env : HandlerEnv) (e : entry) : List HandlerCall :=
  match e.workload codec env.cluster with
  | .decodeFailed => []
  | .lookupFailed err =>
    if !(env.IsNotFound err) then []
    else [.OnDelete e.name e.ns]
  | .ok scx wl =>
    if scx.Create || scx.Manual then []
    else [.OnDelete e.name e.ns, .triggerRollout wl none]

/-- The test `strings.Contains(err.Error(), "unable to find")`. -/
def containsUnableToFind (err : String) : Bool :=
  decide ("unable to find".toList <:+: err.toList)

/-- The body of the loop `for _, ax := range c.affectedConfigs(ctx, svc, trustUID)`
of `updateSvc`, as the calls it makes; `gc` is the generator. -/
def updateSvcStep (env : HandlerEnv)
    (gc : Workload → agentconfig.Sidecar → Except String agentconfig.Sidecar)
    (ax : affectedConfig) : List HandlerCall :=
  let ac := ax.scx
  let generate (wl : Workload) : List HandlerCall :=
    match gc wl ac with
    | .error err =>
      if containsUnableToFind err then [.remove ac.AgentName ac.Namespace] else []
    | .ok acn => [.store acn false]
  match ax.wl with
  | some wl => generate wl
  | none =>
    match ax.err with
    | some err =>
      if env.IsNotFound err then [.remove ac.AgentName ac.Namespace] else []
    | none =>
      match env.cluster.GetWorkload ac.WorkloadName ac.Namespace ac.WorkloadKind with
      | .error err =>
        if env.IsNotFound err then [.remove ac.AgentName ac.Namespace] else []
      | .ok wl => generate wl

/-- The method `configWatcher.affectedConfigs(ctx, svc, trustUID)`. -/
def configWatcher.affectedConfigs (codec : Codec) (cl : Cluster) (c : configWatcher)
    (svc : core.Service) (trustUID : Bool) : List affectedConfig :=
  match c.data.lookup svc.Namespace with
  | none => []
  | some nsData =>
    if nsData.entries.length == 0 then []
    else configsAffectedBySvc codec cl nsData svc trustUID

/-- The method `configWatcher.updateSvc(ctx, svc, trustUID)`, as the calls it
makes. -/
def configWatcher.updateSvc (codec : Codec) (env : HandlerEnv) (c : configWatcher)
    (svc : core.Service) (trustUID : Bool) : List HandlerCall :=
  let img := env.GetAgentImage
  if img == "" then []
  else
    match env.GeneratorConfigFunc img with
    | .error _ => []
    | .ok gc =>
      (c.affectedConfigs codec env.cluster svc trustUID).flatMap (updateSvcStep env gc)

/-- The generated (non-manual) config of the agent `legacy` in `demo`; `demoCodec`
serializes it as `"legacy: generated"`. -/
def generatedLegacy : agentconfig.Sidecar :=
  ⟨"legacy", "demo", "legacy", "Deployment", false, false, []⟩

/-- The watcher of namespace `demo` whose snapshot holds the generated entry
`legacy`. -/
def generatedWatcher : configWatcher where
  data := AList.insert "demo" (AList.insert "legacy" "legacy: generated" ∅) ∅
  configUpdaters := ∅

/-- A handler environment whose cluster has no workload any more: every lookup
fails with the error `"not found"`, which `errors.IsNotFound` recognizes. -/
def goneEnv : HandlerEnv where
  cluster := { GetWorkload := fun _ _ _ => .error "not found", Matches := fun _ _ => false }
  IsNotFound err := err == "not found"
  GetAgentImage := "tel2"
  GeneratorConfigFunc _ := .error "no generator"

/-- The value that the loop of `updateConfigMap` lays over key `k`, computed with
the tests of the code (`decodesToManual` and the map read `index`). -/
def overlayValue (codec : Codec) (docData pending : GoMap String) (k : String) :
    Option String :=
  match pending.lookup k with
  | some v => if decodesToManual codec v = false ∧ docData.index k ≠ v then some v else none
  | none => none

/-! ### The coalescer as a step relation -/

/-- An updater together with the progress of its `updateConfigMap` goroutine:
`wrote` once its `Create` or `Update` call has returned, `removed` once its deferred
`delete(c.cw.configUpdaters, c.namespace)` has run. -/
structure UpdaterTask where
  cu : configUpdater
  wrote : Bool
  removed : Bool

/-- The state the concurrent `store` calls share: the registry `configUpdaters`,
which maps a namespace to an updater (a pointer, here the index of the updater in
`updaters`), and all updaters created so far. -/
structure CoalescerState where
  registry : GoMap Nat
  updaters : List UpdaterTask

/-- The atomic steps of the coalescer: the locked attach-or-create step of `store`
for a pending value, and for the updater with index `i` the document write of its
`updateConfigMap`, the deferred `c.Updated = true`, and the deferred removal from
the registry. -/
inductive CoalescerStep where
  | attach (ns agentName yml : String) (updateSnapshot : Bool)
  | write (i : Nat)
  | markUpdated (i : Nat)
  | remove (i : Nat)

/-- The statements `cu.Config[ac.AgentName] = yml` and, when `updateSnapshot` is set,
`cu.AddToSnapshot(ac.AgentName)` of `store`. -/
def attachConfig (cu : configUpdater) (agentName yml : String) (updateSnapshot : Bool) :
    configUpdater :=
  if updateSnapshot then
    ({ cu with Config := cu.Config.insert agentName yml }).AddToSnapshot agentName
  else { cu with Config := cu.Config.insert agentName yml }

/-- The state in which the updater with index `i` is replaced by `t`. -/
def CoalescerState.setUpdater (s : CoalescerState) (i : Nat) (t : UpdaterTask) :
    CoalescerState :=
  { s with updaters := s.updaters.set i t }

/-- One step of the coalescer; a step that is not enabled leaves the state as it is.

* `attach`: with no updater registered for the namespace, `store` creates one,
  registers it and records the pending value; with one registered it records the
  pending value, unless the updater is `Updated` (then `store` goes round its loop).
* `write`: the updater has not written and is not removed.
* `markUpdated`: the write has returned and `Updated` is not yet set.
* `remove`: the updater is `Updated`, or it has not written (the path on which the
  document get fails); the registry entry of the namespace of the updater is
  deleted by key. -/
def CoalescerState.step (s : CoalescerState) : CoalescerStep → CoalescerState
  | .attach ns agentName yml updateSnapshot =>
    match s.registry.lookup ns with
    | none =>
      { registry := s.registry.insert ns s.updaters.length
        updaters := s.updaters ++
          [⟨attachConfig (createConfigUpdater ns) agentName yml updateSnapshot, false, false⟩] }
    | some i =>
      match s.updaters[i]? with
      | none => s
      | some t =>
        if t.cu.Updated then s
        else s.setUpdater i { t with cu := attachConfig t.cu agentName yml updateSnapshot }
  | .write i =>
    match s.updaters[i]? with
    | none => s
    | some t =>
      if !t.wrote && !t.removed then s.setUpdater i { t with wrote := true }
      else s
  | .markUpdated i =>
    match s.updaters[i]? with
    | none => s
    | some t =>
      if t.wrote && !t.cu.Updated && !t.removed then
        s.setUpdater i { t with cu := { t.cu with Updated := true } }
      else s
  | .remove i =>
    match s.updaters[i]? with
    | none => s
    | some t =>
      if !t.removed && (t.cu.Updated || !t.wrote) then
        { registry := s.registry.erase t.cu.ns
          updaters := s.updaters.set i { t with removed := true } }
      else s

/-- The state of a new watcher: no updater registered, none created. -/
def CoalescerState.init : CoalescerState where
  registry := ∅
  updaters := []

/-- The state after a sequence of steps. -/
def CoalescerState.run (s : CoalescerState) (steps : List CoalescerStep) : CoalescerState :=
  steps.foldl CoalescerState.step s

/-- The invariant of the coalescer: the registry points at updaters of the right
namespace that are not removed, and every updater that is not removed is the one
registered for its namespace. -/
def CoalescerState.Inv (s : CoalescerState) : Prop :=
  (∀ ns i, s.registry.lookup ns = some i →
    ∃ t, s.updaters[i]? = some t ∧ t.cu.ns = ns ∧ t.removed = false) ∧
  (∀ i t, s.updaters[i]? = some t → t.removed = false →
    s.registry.lookup t.cu.ns = some i)

/-! ### The claims about pods and pending values in the words of the specification -/

/-- A running pod, in the words of the specification: some container status of the
pod is Running with a non-zero start time. -/
def PodIsRunning (pod : core.Pod) : Prop :=
  ∃ st ∈ pod.ContainerStatuses, ∃ startedAt, st.Running = some startedAt ∧ startedAt ≠ 0

/-- The container of a pod with a given name: `found` is in `Spec.Containers`,
carries the name, and no container before it does. -/
def IsContainerNamed (pod : core.Pod) (name : String) (found : core.Container) : Prop :=
  ∃ before after, pod.Containers = before ++ found :: after ∧ found.Name = name ∧
    ∀ c ∈ before, c.Name ≠ name

/-- The desired state of one pod, in the words of the specification: without a
desired config the pod has no agent container; with one, the pod has an agent
container equal to the generated one and, for every container the config declares,
the pod has the container of that name and it is the disabled placeholder (sleeper
image and sleeper arguments) exactly when `Replace` is set. -/
def PodInDesiredState (env : RolloutEnv) (ac : Option agentconfig.Sidecar) (pod : core.Pod) :
    Prop :=
  match ac with
  | none => ∀ c ∈ pod.Containers, c.Name ≠ env.ContainerName
  | some ac =>
    (∃ podAc, IsContainerNamed pod env.ContainerName podAc ∧
      env.containerEqual podAc (env.AgentContainer pod ac) = true) ∧
    ∀ cn ∈ ac.Containers, ∃ found, IsContainerNamed pod cn.Name found ∧
      (found.Image = env.sleeperImage ∧ found.Args = env.sleeperArgs ↔ cn.Replace = true)

/-- The pending value `v` of key `k` is laid over the copy of the snapshot, in the
words of the specification: `v` is pending under `k`, it does not decode to a
`Manual` config, and it differs from the current value of the document for that key
(a key the document does not have reads as the empty string, as in Go). -/
def IsOverlaid (codec : Codec) (docData pending : GoMap String) (k v : String) : Prop :=
  pending.lookup k = some v ∧
  (∀ scx, codec.UnmarshalYAML v = some scx → scx.Manual = false) ∧
  docData.lookup k ≠ some v ∧
  ¬ (docData.lookup k = none ∧ v = "")

/-- A running pod with the generated agent container and the container `app`
replaced by the disabled placeholder, and a pod that has not started. -/
def agentPods : List (Option core.Pod) :=
  [ some ⟨"web-1", [⟨"app", "sleeper", ["sleep", "infinity"]⟩, ⟨"traffic-agent", "tel2", []⟩],
      [⟨some 5⟩]⟩,
    some ⟨"web-2", [⟨"app", "nginx", []⟩], [⟨none⟩]⟩ ]

/-- The rollout environment of `demoRolloutEnv` whose pod listings answer
`agentPods`. -/
def agentRolloutEnv : RolloutEnv :=
  { demoRolloutEnv with Pods := fun _ _ => .ok agentPods }

/-- The config of the agent `web` in `demo` that replaces the container `app`. -/
def replacingSidecar : agentconfig.Sidecar :=
  ⟨"web", "demo", "web", "Deployment", false, false, [⟨"app", true, []⟩]⟩


/-! ## Theorems -/

theorem updateDelStep_fold_lookup (ns : String) (mm : GoMap String)
    (l : List ((_ : String) × String)) (acc : GoMap String × List entry) (k : String) :
    (l.foldl (updateDelStep ns mm) acc).1.lookup k =
      if k ∈ l.keys ∧ mm.lookup k = none then none else acc.1.lookup k := by
  induction l generalizing acc with
  | nil => simp
  | cons kv l ih =>
    rw [List.foldl_cons, ih]
    unfold updateDelStep
    by_cases hk : k = kv.1
    · subst hk
      cases hm : mm.lookup kv.1 <;> simp [hm]
    · cases hm : mm.lookup kv.1
      · simp [hk, AList.lookup_erase_ne hk]
      · simp [hk]

theorem updateDelStep_fold_dels (ns : String) (mm : GoMap String)
    (l : List ((_ : String) × String)) (acc : GoMap String × List entry) :
    (l.foldl (updateDelStep ns mm) acc).2 =
      acc.2 ++ (l.filter (fun kv => (mm.lookup kv.1).isNone)).map
        (fun kv => (⟨kv.1, ns, kv.2⟩ : entry)) := by
  induction l generalizing acc with
  | nil => simp
  | cons kv l ih =>
    rw [List.foldl_cons, ih]
    unfold updateDelStep
    cases hm : mm.lookup kv.1 <;> simp [hm, List.filter_cons]

theorem updateModStep_fst_lookup (ns : String) (acc : GoMap String × List entry)
    (kv : (_ : String) × String) (k : String) :
    (updateModStep ns acc kv).1.lookup k =
      if k = kv.1 then some kv.2 else acc.1.lookup k := by
  unfold updateModStep
  by_cases hk : k = kv.1
  · subst hk
    cases hl : acc.1.lookup kv.1 with
    | none => simp
    | some ov =>
      by_cases hov : ov = kv.2
      · simp [hov, hl]
      · simp [hov]
  · cases hl : acc.1.lookup kv.1 with
    | none => simp [hk, AList.lookup_insert_ne hk]
    | some ov =>
      by_cases hov : ov = kv.2
      · simp [hov, hk]
      · simp [hov, hk, AList.lookup_insert_ne hk]

theorem updateModStep_fold_lookup (ns : String)
    (l : List ((_ : String) × String)) (acc : GoMap String × List entry) (k : String)
    (hl : l.NodupKeys) :
    (l.foldl (updateModStep ns) acc).1.lookup k =
      match l.dlookup k with
      | some v => some v
      | none => acc.1.lookup k := by
  induction l generalizing acc with
  | nil => simp
  | cons kv l ih =>
    obtain ⟨a, b⟩ := kv
    rw [List.nodupKeys_cons] at hl
    rw [List.foldl_cons, ih _ hl.2, updateModStep_fst_lookup]
    by_cases hk : k = a
    · subst hk
      have : List.dlookup k l = none := List.dlookup_eq_none.mpr hl.1
      simp [this, List.dlookup_cons_eq]
    · rw [List.dlookup_cons_ne l ⟨a, b⟩ hk]
      simp [hk]

theorem updateModStep_fold_mods (ns : String)
    (l : List ((_ : String) × String)) (acc : GoMap String × List entry)
    (hl : l.NodupKeys) :
    (l.foldl (updateModStep ns) acc).2 =
      acc.2 ++ (l.filter (fun kv => decide (acc.1.lookup kv.1 ≠ some kv.2))).map
        (fun kv => (⟨kv.1, ns, kv.2⟩ : entry)) := by
  induction l generalizing acc with
  | nil => simp
  | cons kv l ih =>
    rw [List.nodupKeys_cons] at hl
    rw [List.foldl_cons, ih _ hl.2]
    have hfil : l.filter (fun kv2 => decide ((updateModStep ns acc kv).1.lookup kv2.1 ≠ some kv2.2))
        = l.filter (fun kv2 => decide (acc.1.lookup kv2.1 ≠ some kv2.2)) := by
      apply List.filter_congr
      intro x hx
      have hne : x.1 ≠ kv.1 := by
        intro h
        exact hl.1 (h ▸ List.mem_keys_of_mem hx)
      rw [updateModStep_fst_lookup]
      simp [hne]
    rw [hfil]
    unfold updateModStep
    cases hlk : acc.1.lookup kv.1 with
    | none => simp [List.filter_cons, hlk]
    | some ov =>
      by_cases hov : ov = kv.2
      · simp [hov, List.filter_cons, hlk]
      · simp [hov, List.filter_cons, hlk]


theorem GoMap.eq_empty_of_lookup {α : Type} (d : GoMap α) (h : ∀ k, d.lookup k = none) :
    d = ∅ := by
  apply AList.ext
  cases hd : d.entries with
  | nil => rfl
  | cons kv l =>
    exfalso
    have h1 := h kv.1
    rw [AList.lookup_eq_none, AList.mem_keys, AList.keys, hd] at h1
    exact h1 (by simp [List.keys])

theorem update_data_lookup (c : configWatcher) (ns : String) (m : Option (GoMap String)) :
    ((c.update ns m).cw.data.lookup ns) =
      some ((m.getD ∅).entries.foldl (updateModStep ns)
        ((((c.data.lookup ns).getD ∅).entries.foldl (updateDelStep ns (m.getD ∅))
          ((c.data.lookup ns).getD ∅, [])).1, [])).1 := by
  simp [configWatcher.update]

theorem update_loops_lookup (ns : String) (s mm : GoMap String) (k : String) :
    (mm.entries.foldl (updateModStep ns)
        ((s.entries.foldl (updateDelStep ns mm) (s, [])).1, [])).1.lookup k = mm.lookup k := by
  rw [updateModStep_fold_lookup ns _ _ k mm.nodupKeys, updateDelStep_fold_lookup]
  show (match mm.lookup k with | some v => some v | none => _) = _
  cases hm : mm.lookup k with
  | some v => rfl
  | none =>
    simp only []
    by_cases hk : k ∈ s.entries.keys
    · simp [hk]
    · have : s.lookup k = none := AList.lookup_eq_none.mpr hk
      simp [hk, this]

/-- C2. After `update(ns, m)` the snapshot map of `ns` exists and has exactly the
keys and values of `m`; it is the empty map when `m` is `nil`.  The prior state
`c` is arbitrary (with or without a map for `ns`). -/
theorem update_snapshot_is_observed (c : configWatcher) (ns : String)
    (m : Option (GoMap String)) :
    ∃ d : GoMap String, (c.update ns m).cw.data.lookup ns = some d ∧
      (∀ k, d.lookup k = (m.getD ∅).lookup k) ∧
      d.entries.Perm (m.getD ∅).entries ∧
      (m = none → d = ∅) := by
  refine ⟨_, update_data_lookup c ns m, ?_, ?_, ?_⟩
  · intro k
    exact update_loops_lookup ns _ _ k
  · apply List.lookup_ext (AList.nodupKeys _) (AList.nodupKeys _)
    intro x y
    have := update_loops_lookup ns ((c.data.lookup ns).getD ∅) (m.getD ∅) x
    change List.dlookup x _ = List.dlookup x _ at this
    rw [this]
  · intro hm
    apply GoMap.eq_empty_of_lookup
    intro k
    rw [update_loops_lookup, hm]
    rfl


theorem update_dels_eq (c : configWatcher) (ns : String) (m : Option (GoMap String)) :
    (c.update ns m).dels =
      (((c.data.lookup ns).getD ∅).entries.filter
        (fun kv => ((m.getD ∅).lookup kv.1).isNone)).map
        (fun kv => (⟨kv.1, ns, kv.2⟩ : entry)) := by
  simp [configWatcher.update, updateDelStep_fold_dels]

theorem update_mods_eq (c : configWatcher) (ns : String) (m : Option (GoMap String)) :
    (c.update ns m).mods =
      ((m.getD ∅).entries.filter
        (fun kv => decide (((c.data.lookup ns).getD ∅).lookup kv.1 ≠ some kv.2))).map
        (fun kv => (⟨kv.1, ns, kv.2⟩ : entry)) := by
  have h : (c.update ns m).mods = ((m.getD ∅).entries.foldl (updateModStep ns)
        ((((c.data.lookup ns).getD ∅).entries.foldl (updateDelStep ns (m.getD ∅))
          ((c.data.lookup ns).getD ∅, [])).1, [])).2 := rfl
  rw [h, updateModStep_fold_mods ns _ _ (AList.nodupKeys _), List.nil_append]
  congr 1
  apply List.filter_congr
  intro x hx
  have hx1 : (m.getD ∅).lookup x.1 = some x.2 := by
    obtain ⟨a, b⟩ := x
    exact AList.mem_lookup_iff.mpr hx
  simp only [updateDelStep_fold_lookup, hx1]
  simp

theorem entry_names_nodup (ns : String) (l : List ((_ : String) × String))
    (p : (_ : String) × String → Bool) (hl : l.NodupKeys) :
    (((l.filter p).map (fun kv => (⟨kv.1, ns, kv.2⟩ : entry))).map entry.name).Nodup := by
  rw [List.map_map]
  have : (entry.name ∘ fun kv : (_ : String) × String => (⟨kv.1, ns, kv.2⟩ : entry)) = Sigma.fst := rfl
  rw [this]
  exact List.Nodup.sublist (List.Sublist.map _ (List.filter_sublist l)) hl

/-- C3. `update(ns, m)` against the prior snapshot `s` of `ns` emits a `del` entry
exactly for the keys of `s` missing from `m` (with the old value), a `mod` entry
exactly for the keys of `m` that are missing from `s` or carry another value there
(with the new value), one entry per key in each slice, and nothing for a key whose
value is unchanged. -/
theorem update_emits_exact_diff (c : configWatcher) (ns : String)
    (m : Option (GoMap String)) :
    (∀ e : entry, e ∈ (c.update ns m).dels ↔
      (e.ns = ns ∧ ((c.data.lookup ns).getD ∅).lookup e.name = some e.value ∧
        (m.getD ∅).lookup e.name = none)) ∧
    ((c.update ns m).dels.map entry.name).Nodup ∧
    (∀ e : entry, e ∈ (c.update ns m).mods ↔
      (e.ns = ns ∧ (m.getD ∅).lookup e.name = some e.value ∧
        ((c.data.lookup ns).getD ∅).lookup e.name ≠ some e.value)) ∧
    ((c.update ns m).mods.map entry.name).Nodup ∧
    (∀ k v, ((c.data.lookup ns).getD ∅).lookup k = some v → (m.getD ∅).lookup k = some v →
      ∀ e ∈ (c.update ns m).dels ++ (c.update ns m).mods, e.name ≠ k) := by
  have hdel : ∀ e : entry, e ∈ (c.update ns m).dels ↔
      (e.ns = ns ∧ ((c.data.lookup ns).getD ∅).lookup e.name = some e.value ∧
        (m.getD ∅).lookup e.name = none) := by
    intro e
    rw [update_dels_eq, List.mem_map]
    constructor
    · rintro ⟨⟨a, b⟩, hkv, rfl⟩
      rw [List.mem_filter] at hkv
      exact ⟨rfl, AList.mem_lookup_iff.mpr hkv.1, by simpa using hkv.2⟩
    · rintro ⟨h1, h2, h3⟩
      refine ⟨⟨e.name, e.value⟩, ?_, ?_⟩
      · rw [List.mem_filter]
        exact ⟨AList.mem_lookup_iff.mp h2, by simp [h3]⟩
      · cases e
        simp at h1
        simp [h1]
  have hmod : ∀ e : entry, e ∈ (c.update ns m).mods ↔
      (e.ns = ns ∧ (m.getD ∅).lookup e.name = some e.value ∧
        ((c.data.lookup ns).getD ∅).lookup e.name ≠ some e.value) := by
    intro e
    rw [update_mods_eq, List.mem_map]
    constructor
    · rintro ⟨⟨a, b⟩, hkv, rfl⟩
      rw [List.mem_filter] at hkv
      exact ⟨rfl, AList.mem_lookup_iff.mpr hkv.1, by simpa using hkv.2⟩
    · rintro ⟨h1, h2, h3⟩
      refine ⟨⟨e.name, e.value⟩, ?_, ?_⟩
      · rw [List.mem_filter]
        exact ⟨AList.mem_lookup_iff.mp h2, by simpa using h3⟩
      · cases e
        simp at h1
        simp [h1]
  refine ⟨hdel, ?_, hmod, ?_, ?_⟩
  · rw [update_dels_eq]
    exact entry_names_nodup ns _ _ (AList.nodupKeys _)
  · rw [update_mods_eq]
    exact entry_names_nodup ns _ _ (AList.nodupKeys _)
  · intro k v hs hm e he hname
    rw [List.mem_append] at he
    rcases he with he | he
    · have := ((hdel e).mp he).2.2
      rw [hname, hm] at this
      exact Option.noConfusion this
    · obtain ⟨_, h2, h3⟩ := (hmod e).mp he
      rw [hname] at h2 h3
      rw [hm] at h2
      rw [hs] at h3
      exact h3 h2


/-- C1 (the code at the failing input). The document and the snapshot of `demo` hold
the entry `legacy` with a value that decodes to a `Manual` config; `store` is called
with a non-manual config whose `AgentName` is `legacy`.  The data that
`updateConfigMap` assigns to the document and sends with `Update` maps `legacy` to
the generated value, not to the original manual one. -/
theorem store_overwrites_manual_entry :
    decodesToManual demoCodec "legacy: manual" = true ∧
    (demoWatcher.data.lookup "demo").bind (fun nm => nm.lookup "legacy") = some "legacy: manual" ∧
    ∃ d : GoMap String,
      (demoWatcher.store demoCodec (.found (AList.insert "legacy" "legacy: manual" ∅)) none
        ⟨"legacy", "demo", "legacy", "Deployment", false, false, []⟩ false).calls
        = [.Get "demo", .Update "demo" d] ∧
      d.lookup "legacy" = some "legacy: generated" ∧
      d.lookup "legacy" ≠ some "legacy: manual" := by
  exact ⟨by decide, by decide, AList.insert "legacy" "legacy: generated" ∅, rfl, by decide,
    by decide⟩

/-- C4. When the serialized form of `acx` is the value the snapshot stores under
`(acx.Namespace, acx.AgentName)`, `store` returns success, leaves the watcher (the
snapshot and the updaters registry) as it was, and makes no call on the
configuration document, whatever `updateSnapshot` is. -/
theorem store_equal_value_is_noop (codec : Codec) (get : GetResult) (writeErr : Option String)
    (c : configWatcher) (acx : agentconfig.Sidecar) (updateSnapshot : Bool)
    (yml : String) (nm : GoMap String)
    (hmarshal : codec.Marshal acx = .ok yml)
    (hns : c.data.lookup acx.Namespace = some nm)
    (hval : nm.lookup acx.AgentName = some yml) :
    (c.store codec get writeErr acx updateSnapshot).status = .returned none ∧
    (c.store codec get writeErr acx updateSnapshot).cw = c ∧
    (c.store codec get writeErr acx updateSnapshot).calls = [] := by
  have hidx : nm.index acx.AgentName = yml := by
    simp [GoMap.index, hval]
  simp [configWatcher.store, hmarshal, hns, hidx]

/-- C4 at a concrete input: the manual config of `legacy` is stored while the
snapshot of `demo` already holds its serialized form. -/
theorem store_equal_value_is_noop_witness :
    (demoWatcher.store demoCodec .notFound none
        ⟨"legacy", "demo", "legacy", "Deployment", true, false, []⟩ true).status
      = .returned none ∧
    (demoWatcher.store demoCodec .notFound none
        ⟨"legacy", "demo", "legacy", "Deployment", true, false, []⟩ true).cw = demoWatcher ∧
    (demoWatcher.store demoCodec .notFound none
        ⟨"legacy", "demo", "legacy", "Deployment", true, false, []⟩ true).calls = [] :=
  store_equal_value_is_noop demoCodec .notFound none demoWatcher
    ⟨"legacy", "demo", "legacy", "Deployment", true, false, []⟩ true
    "legacy: manual" (AList.insert "legacy" "legacy: manual" ∅) rfl rfl (by decide)

theorem any_intercept_iff (svc : core.Service) (ac : agentconfig.Sidecar) :
    ac.Containers.any (fun cn => cn.Intercepts.any (fun ic => ic.ServiceUID == svc.UID)) = true ↔
      referencesUID svc ac := by
  simp [referencesUID, List.any_eq_true]

theorem references_true_iff (cl : Cluster) (svc : core.Service) (trustUID : Bool)
    (ac : agentconfig.Sidecar) (wl : Option Workload) (err : Option String) :
    references cl svc trustUID ac = (wl, err, true) ↔
      (referencesUID svc ac ∧ wl = none ∧ err = none) ∨
      (¬ referencesUID svc ac ∧ err = none ∧
        ∃ w, wl = some w ∧ selectsWorkload cl svc trustUID ac w) := by
  unfold references
  by_cases ha : referencesUID svc ac
  · have := (any_intercept_iff svc ac).mpr ha
    simp only [this, if_true, Prod.mk.injEq, ha, not_true_eq_false, false_and, or_false, true_and]
    constructor
    · rintro ⟨h1, h2, _⟩
      exact ⟨h1.symm, h2.symm⟩
    · rintro ⟨h1, h2⟩
      exact ⟨h1.symm, h2.symm, trivial⟩
  · have hany : ac.Containers.any
        (fun cn => cn.Intercepts.any (fun ic => ic.ServiceUID == svc.UID)) = false := by
      rw [Bool.eq_false_iff]
      exact fun h => ha ((any_intercept_iff svc ac).mp h)
    simp only [hany, Bool.false_eq_true, if_false, ha, false_and, false_or, not_false_eq_true,
      true_and]
    cases trustUID with
    | true =>
      simp [selectsWorkload]
    | false =>
      simp only [Bool.false_eq_true, if_false, selectsWorkload, true_and]
      cases hg : cl.GetWorkload ac.WorkloadName ac.Namespace ac.WorkloadKind with
      | error e => simp
      | ok w =>
        simp only [Prod.mk.injEq, Except.ok.injEq]
        constructor
        · rintro ⟨h1, h2, h3⟩
          exact ⟨h2.symm, w, h1.symm, rfl, h3⟩
        · rintro ⟨h2, w2, h1, h3, h4⟩
          subst h3
          exact ⟨h1.symm, h2.symm, h4⟩

theorem configsAffectedStep_fold (codec : Codec) (cl : Cluster) (svc : core.Service)
    (trustUID : Bool) (l : List ((_ : String) × String)) (acc : List affectedConfig)
    (a : affectedConfig) :
    a ∈ l.foldl (configsAffectedStep codec cl svc trustUID) acc ↔
      a ∈ acc ∨ ∃ kv ∈ l, codec.UnmarshalYAML kv.2 = some a.scx ∧
        references cl svc trustUID a.scx = (a.wl, a.err, true) := by
  induction l generalizing acc with
  | nil => simp
  | cons kv l ih =>
    rw [List.foldl_cons, ih]
    have hstep : a ∈ configsAffectedStep codec cl svc trustUID acc kv ↔
        a ∈ acc ∨ (codec.UnmarshalYAML kv.2 = some a.scx ∧
          references cl svc trustUID a.scx = (a.wl, a.err, true)) := by
      unfold configsAffectedStep
      cases hd : codec.UnmarshalYAML kv.2 with
      | none => simp
      | some scx =>
        rcases hr : references cl svc trustUID scx with ⟨wl, err, b⟩
        cases b with
        | false =>
          simp only [hr, Option.some.injEq]
          constructor
          · exact Or.inl
          · rintro (h | ⟨h1, h2⟩)
            · exact h
            · subst h1
              rw [hr] at h2
              simp at h2
        | true =>
          simp only [hr, List.mem_append, List.mem_singleton, Option.some.injEq]
          constructor
          · rintro (h | h)
            · exact Or.inl h
            · subst h
              exact Or.inr ⟨rfl, hr⟩
          · rintro (h | ⟨h1, h2⟩)
            · exact Or.inl h
            · subst h1
              rw [hr] at h2
              simp only [Prod.mk.injEq, and_true] at h2
              right
              cases a
              simp_all
    rw [hstep]
    simp only [List.mem_cons, exists_eq_or_imp]
    tauto

theorem mem_configsAffectedBySvc (codec : Codec) (cl : Cluster) (nsData : GoMap String)
    (svc : core.Service) (trustUID : Bool) (a : affectedConfig) :
    a ∈ configsAffectedBySvc codec cl nsData svc trustUID ↔
      (∃ k cfg, nsData.lookup k = some cfg ∧ codec.UnmarshalYAML cfg = some a.scx) ∧
      ((referencesUID svc a.scx ∧ a.wl = none ∧ a.err = none) ∨
       (¬ referencesUID svc a.scx ∧ a.err = none ∧
          ∃ w, a.wl = some w ∧ selectsWorkload cl svc trustUID a.scx w)) := by
  unfold configsAffectedBySvc
  rw [configsAffectedStep_fold]
  simp only [List.not_mem_nil, false_or, references_true_iff]
  constructor
  · rintro ⟨⟨k, cfg⟩, hmem, hdec, h⟩
    exact ⟨⟨k, cfg, AList.mem_lookup_iff.mpr hmem, hdec⟩, h⟩
  · rintro ⟨⟨k, cfg, hl, hdec⟩, h⟩
    exact ⟨⟨k, cfg⟩, AList.mem_lookup_iff.mp hl, hdec, h⟩

/-- C5. `configsAffectedBySvc` returns only decodable entries of `nsData`, and
returns an element for a decodable entry exactly when (a) an intercept of the entry
references `svc.UID` or (b) `trustUID` is false and the selector of `svc` matches the
pod template labels of the workload of the entry.  With `trustUID = true` the
entries returned are exactly those referencing `svc.UID`.  An element returned
without (a) carries the workload that was fetched for (b). -/
theorem configsAffectedBySvc_exact (codec : Codec) (cl : Cluster) (nsData : GoMap String)
    (svc : core.Service) (trustUID : Bool) :
    (∀ a ∈ configsAffectedBySvc codec cl nsData svc trustUID,
      ∃ k cfg, nsData.lookup k = some cfg ∧ codec.UnmarshalYAML cfg = some a.scx) ∧
    (∀ k cfg scx, nsData.lookup k = some cfg → codec.UnmarshalYAML cfg = some scx →
      ((∃ a ∈ configsAffectedBySvc codec cl nsData svc trustUID, a.scx = scx) ↔
        (referencesUID svc scx ∨ ∃ wl, selectsWorkload cl svc trustUID scx wl))) ∧
    (∀ k cfg scx, nsData.lookup k = some cfg → codec.UnmarshalYAML cfg = some scx →
      ((∃ a ∈ configsAffectedBySvc codec cl nsData svc true, a.scx = scx) ↔
        referencesUID svc scx)) ∧
    (∀ a ∈ configsAffectedBySvc codec cl nsData svc trustUID, ¬ referencesUID svc a.scx →
      ∃ wl, a.wl = some wl ∧ selectsWorkload cl svc trustUID a.scx wl) := by
  have key : ∀ (t : Bool) k cfg scx, nsData.lookup k = some cfg →
      codec.UnmarshalYAML cfg = some scx →
      ((∃ a ∈ configsAffectedBySvc codec cl nsData svc t, a.scx = scx) ↔
        (referencesUID svc scx ∨ ∃ wl, selectsWorkload cl svc t scx wl)) := by
    intro t k cfg scx hl hdec
    constructor
    · rintro ⟨a, ha, rfl⟩
      rcases ((mem_configsAffectedBySvc codec cl nsData svc t a).mp ha).2 with h | h
      · exact Or.inl h.1
      · obtain ⟨_, _, w, _, hw⟩ := h
        exact Or.inr ⟨w, hw⟩
    · intro h
      by_cases href : referencesUID svc scx
      · refine ⟨⟨none, none, scx⟩, ?_, rfl⟩
        rw [mem_configsAffectedBySvc]
        exact ⟨⟨k, cfg, hl, hdec⟩, Or.inl ⟨href, rfl, rfl⟩⟩
      · rcases h with h | ⟨w, hw⟩
        · exact absurd h href
        · refine ⟨⟨none, some w, scx⟩, ?_, rfl⟩
          rw [mem_configsAffectedBySvc]
          exact ⟨⟨k, cfg, hl, hdec⟩, Or.inr ⟨href, rfl, w, rfl, hw⟩⟩
  refine ⟨?_, key trustUID, ?_, ?_⟩
  · intro a ha
    exact ((mem_configsAffectedBySvc codec cl nsData svc trustUID a).mp ha).1
  · intro k cfg scx hl hdec
    rw [key true k cfg scx hl hdec]
    constructor
    · rintro (h | ⟨w, hw⟩)
      · exact h
      · exact absurd hw.1 (by simp)
    · exact Or.inl
  · intro a ha href
    rcases ((mem_configsAffectedBySvc codec cl nsData svc trustUID a).mp ha).2 with h | h
    · exact absurd h.1 href
    · obtain ⟨_, _, w, h1, hw⟩ := h
      exact ⟨w, h1, hw⟩

/-- C6 (the code on Service update events). For every Service update event the
registered `UpdateFunc` calls `updateSvc` once, with the new Service and
`trustUID = true`; add events get `false` and delete events (also when delivered as
`DeletedFinalStateUnknown`) get `true`. -/
theorem watchServices_update_passes_trustUID_true (oldObj : InformerObj) (svc : core.Service) :
    watchServices (.update oldObj (.service svc)) = [(svc, true)] ∧
    watchServices (.add (.service svc)) = [(svc, false)] ∧
    watchServices (.delete (.service svc)) = [(svc, true)] ∧
    watchServices (.delete (.deletedFinalStateUnknown (.service svc))) = [(svc, true)] := by
  cases oldObj <;> exact ⟨rfl, rfl, rfl, rfl⟩

theorem containerNeedsRollout_false_iff (env : RolloutEnv) (pod : core.Pod)
    (cn : agentconfig.Container) :
    containerNeedsRollout env pod cn = false ↔
      ∃ found, pod.Containers.find? (fun c => c.Name == cn.Name) = some found ∧
        (found.Image = env.sleeperImage ∧ found.Args = env.sleeperArgs ↔ cn.Replace = true) := by
  unfold containerNeedsRollout
  cases hf : pod.Containers.find? (fun c => c.Name == cn.Name) with
  | none => simp
  | some found =>
    have hdis : isDisabled env found = true ↔
        (found.Image = env.sleeperImage ∧ found.Args = env.sleeperArgs) := by
      simp [isDisabled]
    simp only [Option.some.injEq, exists_eq_left']
    cases hr : cn.Replace <;> cases hd : isDisabled env found <;> simp [← hdis, hd]

theorem podNeedsRollout_false_iff (env : RolloutEnv) (ac : Option agentconfig.Sidecar)
    (pod : core.Pod) :
    podNeedsRollout env ac pod = false ↔ podMatchesConfig env ac pod := by
  unfold podNeedsRollout podMatchesConfig
  cases ac with
  | none =>
    cases agentContainer env pod <;> simp
  | some ac =>
    cases hag : agentContainer env pod with
    | none => simp
    | some podAc =>
      simp only [Option.some.injEq, exists_eq_left']
      cases heq : env.containerEqual podAc (env.AgentContainer pod ac) with
      | false => simp
      | true =>
        simp only [Bool.not_true, Bool.false_eq_true, if_false, true_and]
        rw [Bool.eq_false_iff, Ne, List.any_eq_true]
        constructor
        · intro h cn hcn
          rw [← containerNeedsRollout_false_iff]
          cases hc : containerNeedsRollout env pod cn with
          | false => rfl
          | true => exact absurd ⟨cn, hcn, hc⟩ h
        · rintro h ⟨cn, hcn, hc⟩
          have := (containerNeedsRollout_false_iff env pod cn).mpr (h cn hcn)
          rw [this] at hc
          exact Bool.noConfusion hc

theorem countRunningPods_eq (env : RolloutEnv) (ac : Option agentconfig.Sidecar)
    (pods : List (Option core.Pod)) (n : Nat) :
    countRunningPods env ac pods n =
      if (runningPods pods).all (fun pod => !(podNeedsRollout env ac pod)) then
        some (n + (runningPods pods).length)
      else none := by
  induction pods generalizing n with
  | nil => simp [countRunningPods, runningPods]
  | cons podObj pods ih =>
    cases podObj with
    | none =>
      simpa [countRunningPods, runningPods] using ih n
    | some pod =>
      unfold countRunningPods
      cases hrun : isPodRunning pod with
      | false =>
        simpa [runningPods, hrun] using ih n
      | true =>
        cases hneed : podNeedsRollout env ac pod with
        | true => simp [runningPods, hrun, hneed]
        | false =>
          have := ih (n + 1)
          simp only [runningPods] at this
          simp [runningPods, hrun, hneed, this, Nat.add_assoc, Nat.add_comm 1]

/-- The result of `isRolloutNeeded` over the pods the loop counts, with the checks of
the loop body as a proposition. -/
theorem isRolloutNeeded_false_iff_runningPods (env : RolloutEnv) (wl : Workload)
    (ac : Option agentconfig.Sidecar) (pods : List (Option core.Pod))
    (hlabels : wl.PodTemplateLabels.entries ≠ [])
    (hpods : env.Pods wl.Namespace wl.PodTemplateLabels = .ok pods) :
    isRolloutNeeded env wl ac = false ↔
      (∀ pod ∈ runningPods pods, podMatchesConfig env ac pod) ∧
      (runningPods pods ≠ [] ∨ ac = none) := by
  have hlen : (wl.PodTemplateLabels.entries.length == 0) = false := by
    cases h : wl.PodTemplateLabels.entries with
    | nil => exact absurd h hlabels
    | cons a l => rfl
  unfold isRolloutNeeded
  simp only [hlen, Bool.false_eq_true, if_false, hpods, countRunningPods_eq]
  by_cases hall : (runningPods pods).all (fun pod => !(podNeedsRollout env ac pod)) = true
  · have hall2 : ∀ pod ∈ runningPods pods, podMatchesConfig env ac pod := by
      intro pod hpod
      rw [← podNeedsRollout_false_iff]
      have := List.all_eq_true.mp hall pod hpod
      simpa using this
    simp only [hall, if_true, Nat.zero_add]
    cases hrp : runningPods pods with
    | nil =>
      cases ac <;> simp
    | cons p ps =>
      rw [hrp] at hall2
      simp only [List.length_cons, ne_eq, reduceCtorEq, not_false_eq_true, true_or, and_true]
      constructor
      · intro _
        exact hall2
      · intro _
        simp
  · simp only [hall, if_false, Bool.false_eq_true, reduceCtorEq, false_iff, not_and]
    intro h
    exfalso
    apply hall
    rw [List.all_eq_true]
    intro pod hpod
    have := (podNeedsRollout_false_iff env ac pod).mpr (h pod hpod)
    simp [this]

/-- C8 (the code when the pod template has no labels). `isRolloutNeeded` returns
`true` also when no agent is desired (`ac` is `nil`), for every workload whose pod
template carries no labels. -/
theorem isRolloutNeeded_no_labels_without_agent (env : RolloutEnv) (name ns kind : String)
    (rs : Option v1.ReplicaSet) :
    isRolloutNeeded env ⟨name, ns, kind, ∅, rs⟩ none = true ∧
    ∀ ac, isRolloutNeeded env ⟨name, ns, kind, ∅, rs⟩ (some ac) = true :=
  ⟨rfl, fun _ => rfl⟩

theorem waitForReplicaCount_patchesOf (w : World) (count : Int) (retries fetched : Nat) :
    patchesOf (waitForReplicaCount w count retries fetched).events = [] := by
  induction retries generalizing fetched with
  | zero => rfl
  | succ n ih =>
    unfold waitForReplicaCount
    cases hg : w.GetReplicaSet fetched with
    | error e =>
      have := ih (fetched + 1)
      simpa [patchesOf] using this
    | ok rs =>
      by_cases hc : (rs.Replicas == some count) = true
      · simp [hc, patchesOf]
      · have := ih (fetched + 1)
        simp only [hc]
        simpa [patchesOf] using this

theorem waitForReplicaCount_observes (w : World) (count : Int) (retries fetched : Nat)
    (hok : (waitForReplicaCount w count retries fetched).ok = true) :
    Event.fetch (.replicas (some count)) ∈ (waitForReplicaCount w count retries fetched).events := by
  induction retries generalizing fetched with
  | zero => simp [waitForReplicaCount] at hok
  | succ n ih =>
    unfold waitForReplicaCount at hok ⊢
    cases hg : w.GetReplicaSet fetched with
    | error e =>
      rw [hg] at hok
      simp only [List.mem_cons, reduceCtorEq, false_or]
      right
      exact ih (fetched + 1) hok
    | ok rs =>
      rw [hg] at hok
      by_cases hc : (rs.Replicas == some count) = true
      · have : rs.Replicas = some count := by simpa using hc
        simp [hc, this]
      · simp only [hc, Bool.false_eq_true, if_false] at hok ⊢
        simp only [List.mem_cons, reduceCtorEq, false_or, Event.fetch.injEq,
          Observed.replicas.injEq]
        exact Or.inr (ih (fetched + 1) hok)

theorem patchesOf_append (xs ys : List Event) :
    patchesOf (xs ++ ys) = patchesOf xs ++ patchesOf ys := by
  simp [patchesOf, List.filterMap_append]

/-- C9. For a ReplicaSet workload with `N ≥ 1` replicas (a `nil` count is 1) for
which a rollout is needed, when every `Patch` succeeds and both polls succeed,
`triggerRollout` makes exactly two `Patch` calls, in this order: `spec.replicas`
to 0, and, after a `GetReplicaSet` that observed `spec.replicas = 0`,
`spec.replicas` to `N`.  No `restartedAt` annotation patch is made. -/
theorem triggerRollout_replicaSet_two_patches (env : RolloutEnv) (w : World) (wl : Workload)
    (ac : Option agentconfig.Sidecar) (rs : v1.ReplicaSet) (N : Int)
    (hrs : wl.ReplicaSet = some rs) (hN : rs.Replicas.getD 1 = N) (hpos : 1 ≤ N)
    (hneeded : isRolloutNeeded env wl ac = true)
    (hpatch : ∀ i, w.patchErr i = none)
    (hpoll0 : (waitForReplicaCount w 0 200 0).ok = true)
    (hpoll1 : (waitForReplicaCount w N 200 (waitForReplicaCount w 0 200 0).fetched).ok = true) :
    patchesOf (triggerRollout env w wl ac) = [.replicas 0, .replicas N] ∧
    (∃ pre post, triggerRollout env w wl ac =
        .patch (.replicas 0) :: pre ++ .patch (.replicas N) :: post ∧
      Event.fetch (.replicas (some 0)) ∈ pre ∧ patchesOf pre = [] ∧ patchesOf post = []) ∧
    ∀ d t, Event.patch (.restartedAt d t) ∉ triggerRollout env w wl ac := by
  have hne : (N == 0) = false := by
    rw [beq_eq_false_iff_ne]
    omega
  have htrace : triggerRollout env w wl ac =
      .patch (.replicas 0) :: (waitForReplicaCount w 0 200 0).events ++
        .patch (.replicas N) ::
          (waitForReplicaCount w N 200 (waitForReplicaCount w 0 200 0).fetched).events := by
    simp [triggerRollout, hneeded, hrs, triggerRolloutReplicaSet, hN, hne, hpatch, hpoll0, hpoll1]
  have hp0 := waitForReplicaCount_patchesOf w 0 200 0
  have hp1 := waitForReplicaCount_patchesOf w N 200 (waitForReplicaCount w 0 200 0).fetched
  have hpatches : patchesOf (triggerRollout env w wl ac) = [.replicas 0, .replicas N] := by
    rw [htrace]
    have h1 : ∀ (p : Patch) (xs : List Event),
        patchesOf (.patch p :: xs) = p :: patchesOf xs := fun _ _ => rfl
    rw [List.cons_append, h1, patchesOf_append, h1, hp0, hp1]
    rfl
  refine ⟨hpatches, ⟨_, _, htrace, waitForReplicaCount_observes w 0 200 0 hpoll0, hp0, hp1⟩, ?_⟩
  intro d t hmem
  have : Patch.restartedAt d t ∈ patchesOf (triggerRollout env w wl ac) := by
    unfold patchesOf
    rw [List.mem_filterMap]
    exact ⟨_, hmem, rfl⟩
  rw [hpatches] at this
  simp at this

/-- C9 at a concrete input: the ReplicaSet `rs.demo` with three replicas. -/
theorem triggerRollout_replicaSet_two_patches_witness :
    patchesOf (triggerRollout demoRolloutEnv demoWorld demoReplicaSet (some demoSidecar)) =
      [.replicas 0, .replicas 3] ∧
    (∃ pre post, triggerRollout demoRolloutEnv demoWorld demoReplicaSet (some demoSidecar) =
        .patch (.replicas 0) :: pre ++ .patch (.replicas 3) :: post ∧
      Event.fetch (.replicas (some 0)) ∈ pre ∧ patchesOf pre = [] ∧ patchesOf post = []) ∧
    ∀ d t, Event.patch (.restartedAt d t) ∉
      triggerRollout demoRolloutEnv demoWorld demoReplicaSet (some demoSidecar) :=
  triggerRollout_replicaSet_two_patches demoRolloutEnv demoWorld demoReplicaSet
    (some demoSidecar) ⟨some 3⟩ 3 rfl rfl (by decide) (by decide) (fun _ => rfl)
    (by decide) (by decide)

/-- C10 (the code when the scale-back patch fails). The first `Patch` and the poll
for zero replicas succeed and the second `Patch` call fails: the error is logged and
`triggerRolloutReplicaSet` still runs the second poll, fetching the ReplicaSet
again. -/
theorem triggerRolloutReplicaSet_polls_after_failed_scale_back :
    failingScaleBackWorld.patchErr 1 = some "scale back refused" ∧
    triggerRolloutReplicaSet failingScaleBackWorld ⟨some 3⟩ =
      [.patch (.replicas 0), .fetch (.replicas (some 0)),
       .patch (.replicas 3), .logError, .fetch (.replicas (some 3))] := by
  exact ⟨by decide, by decide⟩

/-- C11 (the code at the failing input). A fresh watcher stores the generated config
of `legacy` with `updateSnapshot = false` twice in a row.  The first call creates
the document.  The second call finds the snapshot still without the entry, starts a
new updater and writes the document again, both when the lister already shows the
first write (the pending value is skipped and the `Update` carries the stale copy
of the snapshot) and when it does not: two create-or-update calls in total. -/
theorem store_twice_writes_twice :
    (writesOf (NewWatcher.store demoCodec .notFound none generatedLegacy false).calls).length = 1 ∧
    (writesOf
      ((NewWatcher.store demoCodec .notFound none generatedLegacy false).calls ++
        ((NewWatcher.store demoCodec .notFound none generatedLegacy false).cw.store demoCodec
          (.found (AList.insert "legacy" "legacy: generated" ∅)) none generatedLegacy
          false).calls)).length = 2 ∧
    ((NewWatcher.store demoCodec .notFound none generatedLegacy false).cw.store demoCodec
        (.found (AList.insert "legacy" "legacy: generated" ∅)) none generatedLegacy false).calls
      = [.Get "demo", .Update "demo" ∅] ∧
    (writesOf
      ((NewWatcher.store demoCodec .notFound none generatedLegacy false).calls ++
        ((NewWatcher.store demoCodec .notFound none generatedLegacy false).cw.store demoCodec
          .notFound none generatedLegacy false).calls)).length = 2 := by
  exact ⟨by decide, by decide, rfl, by decide⟩

/-- C12 (the code on the snapshot). `remove` returns the watcher it was given on
every path, so the snapshot is never changed by it.  At the concrete input where the
document and the snapshot of `demo` hold the generated entry `legacy`, `remove`
succeeds, sends an `Update` without the entry, and the snapshot of `demo` still
contains `legacy`. -/
theorem remove_leaves_snapshot_unchanged (codec : Codec) (get : GetResult)
    (updateErr : Option String) (c : configWatcher) (name ns : String) :
    (c.remove codec get updateErr name ns).cw = c ∧
    (generatedWatcher.remove demoCodec (.found (AList.insert "legacy" "legacy: generated" ∅))
        none "legacy" "demo").err = none ∧
    (generatedWatcher.remove demoCodec (.found (AList.insert "legacy" "legacy: generated" ∅))
        none "legacy" "demo").calls = [.Get "demo", .Update "demo" ∅] ∧
    ((generatedWatcher.remove demoCodec (.found (AList.insert "legacy" "legacy: generated" ∅))
        none "legacy" "demo").cw.data.lookup "demo").bind (fun nm => nm.lookup "legacy")
      = some "legacy: generated" := by
  refine ⟨?_, by decide, rfl, by decide⟩
  unfold configWatcher.remove
  cases get with
  | failed e => rfl
  | notFound => rfl
  | found docData =>
    simp only
    cases docData.lookup name with
    | none => rfl
    | some yml =>
      simp only
      cases codec.UnmarshalYAML yml with
      | none => rfl
      | some scx =>
        simp only
        cases scx.Manual <;> rfl

/-- C13. `handleAdd` dispatches on the decoded entry.  It calls nothing when decoding
fails or the workload lookup fails (not-found or another error), and nothing for a
`Manual` config, also when `Create` is set.  For a `Create` config it calls `store`
once with the generated config and `updateSnapshot = false`, and no `OnAdd`, when
the agent image and the generator are available and generation succeeds, and
nothing when one of them fails.  For a config that is neither `Manual` nor `Create`
it calls the `OnAdd` hook once with the resolved workload and the decoded config,
and no `store`. -/
theorem handleAdd_dispatch (codec : Codec) (env : HandlerEnv) (e : entry) :
    (codec.UnmarshalYAML e.value = none → handleAdd codec env e = []) ∧
    (∀ scx err, codec.UnmarshalYAML e.value = some scx →
      env.cluster.GetWorkload scx.WorkloadName scx.Namespace scx.WorkloadKind = .error err →
      handleAdd codec env e = []) ∧
    (∀ scx wl, codec.UnmarshalYAML e.value = some scx →
      env.cluster.GetWorkload scx.WorkloadName scx.Namespace scx.WorkloadKind = .ok wl →
      (scx.Manual = true → handleAdd codec env e = []) ∧
      (scx.Manual = false → scx.Create = true →
        ∀ gc acx, env.GetAgentImage ≠ "" →
          env.GeneratorConfigFunc env.GetAgentImage = .ok gc → gc wl scx = .ok acx →
          handleAdd codec env e = [.store acx false]) ∧
      (scx.Manual = false → scx.Create = true →
        (env.GetAgentImage = "" ∨
          (∃ err, env.GeneratorConfigFunc env.GetAgentImage = .error err) ∨
          (∃ gc err, env.GeneratorConfigFunc env.GetAgentImage = .ok gc ∧
            gc wl scx = .error err)) →
        handleAdd codec env e = []) ∧
      (scx.Manual = false → scx.Create = false →
        handleAdd codec env e = [.OnAdd wl scx])) := by
  refine ⟨?_, ?_, ?_⟩
  · intro hd
    simp [handleAdd, entry.workload, hd]
  · intro scx err hd hw
    simp [handleAdd, entry.workload, hd, hw]
  · intro scx wl hd hw
    refine ⟨?_, ?_, ?_, ?_⟩
    · intro hm
      simp [handleAdd, entry.workload, hd, hw, hm]
    · intro hm hc gc acx himg hgc hgen
      simp [handleAdd, entry.workload, hd, hw, hm, hc, himg, hgc, hgen]
    · intro hm hc h
      rcases h with himg | ⟨err, hgc⟩ | ⟨gc, err, hgc, hgen⟩
      · simp [handleAdd, entry.workload, hd, hw, hm, hc, himg]
      · simp [handleAdd, entry.workload, hd, hw, hm, hc, hgc]
      · simp [handleAdd, entry.workload, hd, hw, hm, hc, hgc, hgen]
    · intro hm hc
      simp [handleAdd, entry.workload, hd, hw, hm, hc]

/-- C14 (the code at the failing input). The deleted entry `legacy` decodes to a
`Manual` config and its workload is not found any more: `handleDelete` does not
reach its test of `Create` and `Manual` and calls the `OnDelete` hook. -/
theorem handleDelete_manual_workload_gone_calls_OnDelete :
    decodesToManual demoCodec "legacy: manual" = true ∧
    handleDelete demoCodec goneEnv ⟨"legacy", "demo", "legacy: manual"⟩ =
      [.OnDelete "legacy" "demo"] ∧
    handleDelete demoCodec goneEnv ⟨"legacy", "demo", "legacy: manual"⟩ ≠ [] := by
  refine ⟨by decide, rfl, ?_⟩
  have h : handleDelete demoCodec goneEnv ⟨"legacy", "demo", "legacy: manual"⟩ =
      [.OnDelete "legacy" "demo"] := rfl
  rw [h]
  exact List.cons_ne_nil _ _

/-- All branches of `handleDelete`, as call lists.  It calls nothing when decoding
fails or the workload lookup fails with an error other than not-found.  When the lookup reports not-found
it calls `OnDelete(name, namespace)` once and no `triggerRollout`, whatever the
flags of the entry.  When the workload is found it calls nothing for a `Create` or
`Manual` config, and for any other config `OnDelete(name, namespace)` once followed
by `triggerRollout(workload, nil)`. -/
theorem handleDelete_dispatch (codec : Codec) (env : HandlerEnv) (e : entry) :
    (codec.UnmarshalYAML e.value = none → handleDelete codec env e = []) ∧
    (∀ scx err, codec.UnmarshalYAML e.value = some scx →
      env.cluster.GetWorkload scx.WorkloadName scx.Namespace scx.WorkloadKind = .error err →
      (env.IsNotFound err = true → handleDelete codec env e = [.OnDelete e.name e.ns]) ∧
      (env.IsNotFound err = false → handleDelete codec env e = [])) ∧
    (∀ scx wl, codec.UnmarshalYAML e.value = some scx →
      env.cluster.GetWorkload scx.WorkloadName scx.Namespace scx.WorkloadKind = .ok wl →
      ((scx.Create = true ∨ scx.Manual = true) → handleDelete codec env e = []) ∧
      (scx.Create = false → scx.Manual = false →
        handleDelete codec env e = [.OnDelete e.name e.ns, .triggerRollout wl none])) := by
  refine ⟨?_, ?_, ?_⟩
  · intro hd
    simp [handleDelete, entry.workload, hd]
  · intro scx err hd hw
    constructor
    · intro hnf
      simp [handleDelete, entry.workload, hd, hw, hnf]
    · intro hnf
      simp [handleDelete, entry.workload, hd, hw, hnf]
  · intro scx wl hd hw
    constructor
    · intro h
      rcases h with h | h
      · simp [handleDelete, entry.workload, hd, hw, h]
      · simp [handleDelete, entry.workload, hd, hw, h]
    · intro hc hm
      simp [handleDelete, entry.workload, hd, hw, hc, hm]

theorem updateConfigMapStep_fst_lookup (codec : Codec) (ns : String) (docData : GoMap String)
    (addTo : List String) (acc : GoMap String × GoMap (GoMap String))
    (kv : (_ : String) × String) (k : String) :
    (updateConfigMapStep codec ns docData addTo acc kv).1.lookup k =
      if k = kv.1 ∧ decodesToManual codec kv.2 = false ∧ docData.index kv.1 ≠ kv.2 then some kv.2
      else acc.1.lookup k := by
  unfold updateConfigMapStep
  cases hm : decodesToManual codec kv.2 with
  | true => simp
  | false =>
    by_cases hd : docData.index kv.1 = kv.2
    · simp [hd]
    · by_cases hk : k = kv.1
      · subst hk
        by_cases ha : kv.1 ∈ addTo <;> simp [hd, ha]
      · by_cases ha : kv.1 ∈ addTo <;> simp [hd, ha, hk, AList.lookup_insert_ne hk]

theorem updateConfigMapStep_snd_lookup (codec : Codec) (ns : String) (docData : GoMap String)
    (addTo : List String) (acc : GoMap String × GoMap (GoMap String))
    (kv : (_ : String) × String) (k : String) :
    (((updateConfigMapStep codec ns docData addTo acc kv).2.lookup ns).getD ∅).lookup k =
      if k = kv.1 ∧ decodesToManual codec kv.2 = false ∧ docData.index kv.1 ≠ kv.2 ∧
          kv.1 ∈ addTo then some kv.2
      else ((acc.2.lookup ns).getD ∅).lookup k := by
  unfold updateConfigMapStep
  cases hm : decodesToManual codec kv.2 with
  | true => simp
  | false =>
    by_cases hd : docData.index kv.1 = kv.2
    · simp [hd]
    · by_cases ha : kv.1 ∈ addTo
      · by_cases hk : k = kv.1
        · subst hk
          simp [hd, ha]
        · simp [hd, ha, hk, AList.lookup_insert_ne hk]
      · simp [hd, ha]

theorem updateConfigMapStep_snd_other (codec : Codec) (ns : String) (docData : GoMap String)
    (addTo : List String) (acc : GoMap String × GoMap (GoMap String))
    (kv : (_ : String) × String) (ns2 : String) (hns : ns2 ≠ ns) :
    (updateConfigMapStep codec ns docData addTo acc kv).2.lookup ns2 = acc.2.lookup ns2 := by
  unfold updateConfigMapStep
  cases hm : decodesToManual codec kv.2 with
  | true => simp
  | false =>
    by_cases hd : docData.index kv.1 = kv.2
    · simp [hd]
    · by_cases ha : kv.1 ∈ addTo <;> simp [hd, ha, AList.lookup_insert_ne hns]

theorem updateConfigMapStep_fold (codec : Codec) (ns : String) (docData : GoMap String)
    (addTo : List String) (l : List ((_ : String) × String))
    (acc : GoMap String × GoMap (GoMap String)) (hl : l.NodupKeys) (k : String) :
    ((l.foldl (updateConfigMapStep codec ns docData addTo) acc).1.lookup k =
      match l.dlookup k with
      | some v =>
        if decodesToManual codec v = false ∧ docData.index k ≠ v then some v
        else acc.1.lookup k
      | none => acc.1.lookup k) ∧
    ((((l.foldl (updateConfigMapStep codec ns docData addTo) acc).2.lookup ns).getD ∅).lookup k) =
      (match l.dlookup k with
      | some v =>
        if decodesToManual codec v = false ∧ docData.index k ≠ v ∧ k ∈ addTo then some v
        else ((acc.2.lookup ns).getD ∅).lookup k
      | none => ((acc.2.lookup ns).getD ∅).lookup k) ∧
    (∀ ns2, ns2 ≠ ns →
      (l.foldl (updateConfigMapStep codec ns docData addTo) acc).2.lookup ns2 =
        acc.2.lookup ns2) := by
  induction l generalizing acc with
  | nil => simp
  | cons kv l ih =>
    obtain ⟨a, b⟩ := kv
    rw [List.nodupKeys_cons] at hl
    rw [List.foldl_cons]
    obtain ⟨ih1, ih2, ih3⟩ := ih (updateConfigMapStep codec ns docData addTo acc ⟨a, b⟩) hl.2
    refine ⟨?_, ?_, ?_⟩
    · rw [ih1, updateConfigMapStep_fst_lookup]
      by_cases hk : k = a
      · subst hk
        have hnone : List.dlookup k l = none := List.dlookup_eq_none.mpr hl.1
        simp [hnone, List.dlookup_cons_eq]
      · rw [List.dlookup_cons_ne l ⟨a, b⟩ hk]
        simp [hk]
    · rw [ih2, updateConfigMapStep_snd_lookup]
      by_cases hk : k = a
      · subst hk
        have hnone : List.dlookup k l = none := List.dlookup_eq_none.mpr hl.1
        simp [hnone, List.dlookup_cons_eq]
      · rw [List.dlookup_cons_ne l ⟨a, b⟩ hk]
        simp [hk]
    · intro ns2 hns
      rw [ih3 ns2 hns, updateConfigMapStep_snd_other _ _ _ _ _ _ _ hns]

theorem overlayValue_eq (codec : Codec) (docData pending : GoMap String) (k : String) :
    overlayValue codec docData pending k =
      match pending.entries.dlookup k with
      | some v => if decodesToManual codec v = false ∧ docData.index k ≠ v then some v else none
      | none => none := rfl

/-- The calls of `updateConfigMap`, the data it sends and the snapshot it leaves,
key by key through `overlayValue`. -/
theorem updateConfigMap_overlayValue (codec : Codec) (writeErr : Option String)
    (cw : configWatcher) (c : configUpdater) :
    (∀ docData, ∃ data,
      (c.updateConfigMap codec (.found docData) writeErr cw).calls =
        [.Get c.ns, .Update c.ns data] ∧
      (∀ k, data.lookup k =
        match overlayValue codec docData c.Config k with
        | some v => some v
        | none => ((cw.data.lookup c.ns).getD ∅).lookup k) ∧
      (∀ k, (((c.updateConfigMap codec (.found docData) writeErr cw).cw.data.lookup c.ns).getD
          ∅).lookup k =
        match overlayValue codec docData c.Config k with
        | some v => if k ∈ c.addToSnapshot then some v else ((cw.data.lookup c.ns).getD ∅).lookup k
        | none => ((cw.data.lookup c.ns).getD ∅).lookup k) ∧
      (∀ ns2, ns2 ≠ c.ns →
        (c.updateConfigMap codec (.found docData) writeErr cw).cw.data.lookup ns2 =
          cw.data.lookup ns2)) ∧
    (∃ data,
      (c.updateConfigMap codec .notFound writeErr cw).calls =
        [.Get c.ns, .Create c.ns data] ∧
      (∀ k, data.lookup k =
        match overlayValue codec ∅ c.Config k with
        | some v => some v
        | none => ((cw.data.lookup c.ns).getD ∅).lookup k) ∧
      (∀ k, (((c.updateConfigMap codec .notFound writeErr cw).cw.data.lookup c.ns).getD
          ∅).lookup k =
        match overlayValue codec ∅ c.Config k with
        | some v => if k ∈ c.addToSnapshot then some v else ((cw.data.lookup c.ns).getD ∅).lookup k
        | none => ((cw.data.lookup c.ns).getD ∅).lookup k) ∧
      (∀ ns2, ns2 ≠ c.ns →
        (c.updateConfigMap codec .notFound writeErr cw).cw.data.lookup ns2 =
          cw.data.lookup ns2)) := by
  have key : ∀ docData k,
      ((c.Config.entries.foldl (updateConfigMapStep codec c.ns docData c.addToSnapshot)
          ((cw.data.lookup c.ns).getD ∅, cw.data)).1.lookup k =
        match overlayValue codec docData c.Config k with
        | some v => some v
        | none => ((cw.data.lookup c.ns).getD ∅).lookup k) ∧
      ((((c.Config.entries.foldl (updateConfigMapStep codec c.ns docData c.addToSnapshot)
          ((cw.data.lookup c.ns).getD ∅, cw.data)).2.lookup c.ns).getD ∅).lookup k =
        match overlayValue codec docData c.Config k with
        | some v => if k ∈ c.addToSnapshot then some v else ((cw.data.lookup c.ns).getD ∅).lookup k
        | none => ((cw.data.lookup c.ns).getD ∅).lookup k) := by
    intro docData k
    obtain ⟨h1, h2, _⟩ := updateConfigMapStep_fold codec c.ns docData c.addToSnapshot
      c.Config.entries ((cw.data.lookup c.ns).getD ∅, cw.data) c.Config.nodupKeys k
    rw [h1, h2, overlayValue_eq]
    cases hlk : List.dlookup k c.Config.entries with
    | none => exact ⟨rfl, rfl⟩
    | some v =>
      by_cases hov : decodesToManual codec v = false ∧ docData.index k ≠ v
      · by_cases ha : k ∈ c.addToSnapshot
        · simp [hov, ha]
        · simp [hov, ha]
      · constructor
        · simp only [hov, if_false]
        · have : ¬ (decodesToManual codec v = false ∧ docData.index k ≠ v ∧
              k ∈ c.addToSnapshot) := fun h => hov ⟨h.1, h.2.1⟩
          simp only [this, hov, if_false]
  have other : ∀ docData ns2, ns2 ≠ c.ns →
      (c.Config.entries.foldl (updateConfigMapStep codec c.ns docData c.addToSnapshot)
          ((cw.data.lookup c.ns).getD ∅, cw.data)).2.lookup ns2 = cw.data.lookup ns2 := by
    intro docData ns2 hns
    exact (updateConfigMapStep_fold codec c.ns docData c.addToSnapshot
      c.Config.entries ((cw.data.lookup c.ns).getD ∅, cw.data) c.Config.nodupKeys "").2.2 ns2 hns
  constructor
  · intro docData
    exact ⟨_, rfl, fun k => (key docData k).1, fun k => (key docData k).2, other docData⟩
  · exact ⟨_, rfl, fun k => (key ∅ k).1, fun k => (key ∅ k).2, other ∅⟩

/-- C17. Every element that `configsAffectedBySvc` returns has a `nil` `err` and comes
from an entry that decodes.  An entry that does not reference the UID of the Service
and whose workload lookup fails (with not-found or any other error) is left out of
the result.  So a `remove` that `updateSvc` issues for a returned element is never
caused by an error the analyzer cached: it follows a failed lookup or a failed
generation made by `updateSvc` itself. -/
theorem configsAffectedBySvc_never_reports_error (codec : Codec) (env : HandlerEnv)
    (nsData : GoMap String) (svc : core.Service) (trustUID : Bool)
    (gc : Workload → agentconfig.Sidecar → Except String agentconfig.Sidecar) :
    (∀ a ∈ configsAffectedBySvc codec env.cluster nsData svc trustUID,
      a.err = none ∧
      ∃ k cfg, nsData.lookup k = some cfg ∧ codec.UnmarshalYAML cfg = some a.scx) ∧
    (∀ scx err, ¬ referencesUID svc scx →
      env.cluster.GetWorkload scx.WorkloadName scx.Namespace scx.WorkloadKind = .error err →
      ∀ a ∈ configsAffectedBySvc codec env.cluster nsData svc trustUID, a.scx ≠ scx) ∧
    (∀ a ∈ configsAffectedBySvc codec env.cluster nsData svc trustUID, ∀ name ns,
      HandlerCall.remove name ns ∈ updateSvcStep env gc a →
      (a.wl = none ∧ ∃ err,
        env.cluster.GetWorkload a.scx.WorkloadName a.scx.Namespace a.scx.WorkloadKind
          = .error err ∧ env.IsNotFound err = true) ∨
      (∃ wl err, gc wl a.scx = .error err ∧ containsUnableToFind err = true)) := by
  have herr : ∀ a ∈ configsAffectedBySvc codec env.cluster nsData svc trustUID,
      a.err = none := by
    intro a ha
    rcases ((mem_configsAffectedBySvc codec env.cluster nsData svc trustUID a).mp ha).2 with h | h
    · exact h.2.2
    · exact h.2.1
  have hgen : ∀ (a : affectedConfig) (wl : Workload) name ns,
      HandlerCall.remove name ns ∈
        (match gc wl a.scx with
          | .error err =>
            if containsUnableToFind err then
              [HandlerCall.remove a.scx.AgentName a.scx.Namespace] else []
          | .ok acn => [HandlerCall.store acn false]) →
      ∃ wl err, gc wl a.scx = .error err ∧ containsUnableToFind err = true := by
    intro a wl name ns hmem
    cases hg : gc wl a.scx with
    | error err =>
      rw [hg] at hmem
      cases hc : containsUnableToFind err with
      | true => exact ⟨wl, err, hg, hc⟩
      | false => simp [hc] at hmem
    | ok acn =>
      rw [hg] at hmem
      simp at hmem
  refine ⟨?_, ?_, ?_⟩
  · intro a ha
    exact ⟨herr a ha,
      ((mem_configsAffectedBySvc codec env.cluster nsData svc trustUID a).mp ha).1⟩
  · intro scx err href hw a ha hscx
    subst hscx
    rcases ((mem_configsAffectedBySvc codec env.cluster nsData svc trustUID a).mp ha).2 with h | h
    · exact href h.1
    · obtain ⟨_, _, w, _, hsel⟩ := h
      have := hsel.2.1
      rw [hw] at this
      exact Except.noConfusion this
  · intro a ha name ns hmem
    have hnone := herr a ha
    unfold updateSvcStep at hmem
    cases hwl : a.wl with
    | some wl =>
      rw [hwl] at hmem
      exact Or.inr (hgen a wl name ns hmem)
    | none =>
      rw [hwl] at hmem
      simp only [hnone] at hmem
      cases hg : env.cluster.GetWorkload a.scx.WorkloadName a.scx.Namespace
          a.scx.WorkloadKind with
      | error err =>
        rw [hg] at hmem
        cases hnf : env.IsNotFound err with
        | true => exact Or.inl ⟨rfl, err, rfl, hnf⟩
        | false => simp [hnf] at hmem
      | ok wl =>
        rw [hg] at hmem
        exact Or.inr (hgen a wl name ns hmem)

theorem attachConfig_ns (cu : configUpdater) (agentName yml : String) (updateSnapshot : Bool) :
    (attachConfig cu agentName yml updateSnapshot).ns = cu.ns := by
  unfold attachConfig
  cases updateSnapshot <;> rfl

theorem CoalescerState.Inv_setUpdater (s : CoalescerState) (i : Nat) (t t2 : UpdaterTask)
    (hi : s.updaters[i]? = some t) (hns : t2.cu.ns = t.cu.ns) (hrem : t2.removed = t.removed)
    (h : s.Inv) : (s.setUpdater i t2).Inv := by
  have hlt : i < s.updaters.length := (List.getElem?_eq_some.mp hi).1
  unfold CoalescerState.setUpdater
  constructor
  · intro ns j hj
    obtain ⟨u, hu, huns, hurem⟩ := h.1 ns j hj
    by_cases hij : i = j
    · subst hij
      rw [hi] at hu
      cases hu
      exact ⟨t2, List.getElem?_set_self hlt, hns.trans huns, hrem.trans hurem⟩
    · exact ⟨u, by simp only [List.getElem?_set_ne hij]; exact hu, huns, hurem⟩
  · intro j u hu hurem
    by_cases hij : i = j
    · subst hij
      simp only [List.getElem?_set_self hlt, Option.some.injEq] at hu
      subst hu
      have := h.2 i t hi (hrem ▸ hurem)
      rw [hns]
      exact this
    · simp only [List.getElem?_set_ne hij] at hu
      exact h.2 j u hu hurem

theorem CoalescerState.Inv_create (s : CoalescerState) (ns : String) (cu : configUpdater)
    (hcu : cu.ns = ns) (hreg : s.registry.lookup ns = none) (h : s.Inv) :
    CoalescerState.Inv
      { registry := s.registry.insert ns s.updaters.length
        updaters := s.updaters ++ [⟨cu, false, false⟩] } := by
  constructor
  · intro ns2 j hj
    by_cases hns : ns2 = ns
    · subst hns
      simp only [AList.lookup_insert, Option.some.injEq] at hj
      subst hj
      exact ⟨_, List.getElem?_concat_length _ _, hcu, rfl⟩
    · simp only [AList.lookup_insert_ne hns] at hj
      obtain ⟨u, hu, huns, hurem⟩ := h.1 ns2 j hj
      have hlt : j < s.updaters.length := (List.getElem?_eq_some.mp hu).1
      exact ⟨u, by simp only [List.getElem?_append_left hlt]; exact hu, huns, hurem⟩
  · intro j u hu hurem
    simp only at hu
    by_cases hlt : j < s.updaters.length
    · rw [List.getElem?_append_left hlt] at hu
      have hold := h.2 j u hu hurem
      have hne : u.cu.ns ≠ ns := by
        intro heq
        rw [heq, hreg] at hold
        exact Option.noConfusion hold
      simp only [AList.lookup_insert_ne hne]
      exact hold
    · have hge : s.updaters.length ≤ j := Nat.le_of_not_lt hlt
      rw [List.getElem?_append_right hge] at hu
      have hj0 : j - s.updaters.length = 0 := by
        by_contra hne
        have h1 : 1 ≤ j - s.updaters.length := Nat.one_le_iff_ne_zero.mpr hne
        rw [List.getElem?_eq_none (by simpa using h1)] at hu
        exact Option.noConfusion hu
      have hj : j = s.updaters.length := by omega
      rw [hj0] at hu
      simp only [List.getElem?_cons_zero, Option.some.injEq] at hu
      subst hu
      show AList.lookup cu.ns (AList.insert ns s.updaters.length s.registry) = some j
      rw [hcu, AList.lookup_insert, hj]

theorem CoalescerState.Inv_remove (s : CoalescerState) (i : Nat) (t : UpdaterTask)
    (hi : s.updaters[i]? = some t) (hrem : t.removed = false) (h : s.Inv) :
    CoalescerState.Inv
      { registry := s.registry.erase t.cu.ns
        updaters := s.updaters.set i { t with removed := true } } := by
  have hlt : i < s.updaters.length := (List.getElem?_eq_some.mp hi).1
  have hregi := h.2 i t hi hrem
  constructor
  · intro ns j hj
    simp only at hj
    by_cases hns : ns = t.cu.ns
    · subst hns
      simp [AList.lookup_erase] at hj
    · simp only [AList.lookup_erase_ne hns] at hj
      obtain ⟨u, hu, huns, hurem⟩ := h.1 ns j hj
      have hij : i ≠ j := by
        intro heq
        subst heq
        rw [hi] at hu
        cases hu
        exact hns huns.symm
      exact ⟨u, by simp only [List.getElem?_set_ne hij]; exact hu, huns, hurem⟩
  · intro j u hu hurem
    simp only at hu
    by_cases hij : i = j
    · subst hij
      simp only [List.getElem?_set_self hlt, Option.some.injEq] at hu
      subst hu
      exact Bool.noConfusion hurem
    · simp only [List.getElem?_set_ne hij] at hu
      have hold := h.2 j u hu hurem
      have hne : u.cu.ns ≠ t.cu.ns := by
        intro heq
        rw [heq, hregi] at hold
        exact hij (Option.some.inj hold)
      simp only [AList.lookup_erase_ne hne]
      exact hold

theorem CoalescerState.Inv_step (s : CoalescerState) (a : CoalescerStep) (h : s.Inv) :
    (s.step a).Inv := by
  cases a with
  | attach ns agentName yml updateSnapshot =>
    cases hreg : s.registry.lookup ns with
    | none =>
      simp only [CoalescerState.step, hreg]
      exact CoalescerState.Inv_create s ns _ (attachConfig_ns _ _ _ _) hreg h
    | some i =>
      cases hi : s.updaters[i]? with
      | none =>
        simp only [CoalescerState.step, hreg, hi]
        exact h
      | some t =>
        simp only [CoalescerState.step, hreg, hi]
        by_cases hup : t.cu.Updated = true
        · simp only [hup, if_true]
          exact h
        · simp only [hup, Bool.false_eq_true, if_false]
          exact CoalescerState.Inv_setUpdater s i t _ hi (attachConfig_ns _ _ _ _) rfl h
  | write i =>
    cases hi : s.updaters[i]? with
    | none =>
      simp only [CoalescerState.step, hi]
      exact h
    | some t =>
      simp only [CoalescerState.step, hi]
      by_cases hc : (!t.wrote && !t.removed) = true
      · simp only [hc, if_true]
        exact CoalescerState.Inv_setUpdater s i t _ hi rfl rfl h
      · simp only [hc, Bool.false_eq_true, if_false]
        exact h
  | markUpdated i =>
    cases hi : s.updaters[i]? with
    | none =>
      simp only [CoalescerState.step, hi]
      exact h
    | some t =>
      simp only [CoalescerState.step, hi]
      by_cases hc : (t.wrote && !t.cu.Updated && !t.removed) = true
      · simp only [hc, if_true]
        exact CoalescerState.Inv_setUpdater s i t _ hi rfl rfl h
      · simp only [hc, Bool.false_eq_true, if_false]
        exact h
  | remove i =>
    cases hi : s.updaters[i]? with
    | none =>
      simp only [CoalescerState.step, hi]
      exact h
    | some t =>
      simp only [CoalescerState.step, hi]
      by_cases hc : (!t.removed && (t.cu.Updated || !t.wrote)) = true
      · simp only [hc, if_true]
        have hrem : t.removed = false := by
          simp only [Bool.and_eq_true, Bool.not_eq_true'] at hc
          exact hc.1
        exact CoalescerState.Inv_remove s i t hi hrem h
      · simp only [hc, Bool.false_eq_true, if_false]
        exact h

theorem CoalescerState.Inv_run (steps : List CoalescerStep) (s : CoalescerState) (h : s.Inv) :
    (s.run steps).Inv := by
  induction steps generalizing s with
  | nil => exact h
  | cons a steps ih => exact ih (s.step a) (CoalescerState.Inv_step s a h)

theorem CoalescerState.Inv_init : CoalescerState.init.Inv := by
  constructor
  · intro ns i hi
    simp [CoalescerState.init] at hi
  · intro i t hi
    simp [CoalescerState.init] at hi

/-- C15. In every state the coalescer reaches from the state of a new watcher, two
updaters of one namespace that are both not yet removed from the registry are the
same updater.  The attach-or-create step of `store` creates an updater for a
namespace only when no updater is registered for it, and then every updater created
for that namespace before is removed and its write step is not enabled: its
create-or-update call, if it made one, has returned. -/
theorem coalescer_one_updater_per_namespace (steps : List CoalescerStep) :
    (∀ (i j : Nat) (ti tj : UpdaterTask),
      (CoalescerState.init.run steps).updaters[i]? = some ti →
      (CoalescerState.init.run steps).updaters[j]? = some tj →
      ti.removed = false → tj.removed = false → ti.cu.ns = tj.cu.ns → i = j) ∧
    (∀ ns agentName yml updateSnapshot,
      ((CoalescerState.init.run steps).step
          (.attach ns agentName yml updateSnapshot)).updaters.length ≠
        (CoalescerState.init.run steps).updaters.length →
      (CoalescerState.init.run steps).registry.lookup ns = none) ∧
    (∀ ns, (CoalescerState.init.run steps).registry.lookup ns = none →
      ∀ i t, (CoalescerState.init.run steps).updaters[i]? = some t → t.cu.ns = ns →
        t.removed = true ∧
        (CoalescerState.init.run steps).step (.write i) = CoalescerState.init.run steps) := by
  have hinv := CoalescerState.Inv_run steps CoalescerState.init CoalescerState.Inv_init
  refine ⟨?_, ?_, ?_⟩
  · intro i j ti tj hi hj hri hrj hns
    have h1 := hinv.2 i ti hi hri
    have h2 := hinv.2 j tj hj hrj
    rw [hns, h2] at h1
    exact (Option.some.inj h1).symm
  · intro ns agentName yml updateSnapshot hlen
    cases hreg : (CoalescerState.init.run steps).registry.lookup ns with
    | none => rfl
    | some i =>
      exfalso
      apply hlen
      cases hi : (CoalescerState.init.run steps).updaters[i]? with
      | none => simp only [CoalescerState.step, hreg, hi]
      | some t =>
        simp only [CoalescerState.step, hreg, hi]
        cases t.cu.Updated <;> simp [CoalescerState.setUpdater]
  · intro ns hreg i t hi hns
    have hrem : t.removed = true := by
      cases hr : t.removed with
      | true => rfl
      | false =>
        have := hinv.2 i t hi hr
        rw [hns, hreg] at this
        exact Option.noConfusion this
    refine ⟨hrem, ?_⟩
    simp [CoalescerState.step, hi, hrem]

theorem isPodRunning_iff (pod : core.Pod) : isPodRunning pod = true ↔ PodIsRunning pod := by
  unfold isPodRunning PodIsRunning
  rw [List.any_eq_true]
  constructor
  · rintro ⟨st, hst, h⟩
    cases hr : st.Running with
    | none => simp [hr] at h
    | some startedAt =>
      rw [hr] at h
      exact ⟨st, hst, startedAt, hr, by simpa using h⟩
  · rintro ⟨st, hst, startedAt, hr, hne⟩
    exact ⟨st, hst, by simp [hr, hne]⟩

theorem find_name_eq_some_iff (pod : core.Pod) (name : String) (found : core.Container) :
    pod.Containers.find? (fun c => c.Name == name) = some found ↔
      IsContainerNamed pod name found := by
  unfold IsContainerNamed
  rw [List.find?_eq_some]
  constructor
  · rintro ⟨hname, before, after, heq, hbefore⟩
    refine ⟨before, after, heq, by simpa using hname, ?_⟩
    intro c hc
    simpa using hbefore c hc
  · rintro ⟨before, after, heq, hname, hbefore⟩
    refine ⟨by simpa using hname, before, after, heq, ?_⟩
    intro c hc
    simpa using hbefore c hc

theorem find_name_eq_none_iff (pod : core.Pod) (name : String) :
    pod.Containers.find? (fun c => c.Name == name) = none ↔
      ∀ c ∈ pod.Containers, c.Name ≠ name := by
  rw [List.find?_eq_none]
  constructor
  · intro h c hc
    simpa using h c hc
  · intro h c hc
    simpa using h c hc

theorem podMatchesConfig_iff (env : RolloutEnv) (ac : Option agentconfig.Sidecar)
    (pod : core.Pod) : podMatchesConfig env ac pod ↔ PodInDesiredState env ac pod := by
  unfold podMatchesConfig PodInDesiredState agentContainer
  cases ac with
  | none => exact find_name_eq_none_iff pod env.ContainerName
  | some ac =>
    simp only [find_name_eq_some_iff]

theorem mem_runningPods_iff (pods : List (Option core.Pod)) (pod : core.Pod) :
    pod ∈ runningPods pods ↔ some pod ∈ pods ∧ PodIsRunning pod := by
  unfold runningPods
  rw [List.mem_filterMap, ← isPodRunning_iff]
  constructor
  · rintro ⟨podObj, hmem, h⟩
    cases podObj with
    | none => simp at h
    | some p =>
      by_cases hr : isPodRunning p = true
      · simp only [hr, if_true, Option.some.injEq] at h
        subst h
        exact ⟨hmem, hr⟩
      · simp [hr] at h
  · rintro ⟨hmem, hr⟩
    exact ⟨some pod, hmem, by simp [hr]⟩

/-- C7. For a workload whose pod template has a label and whose pod listing
succeeds with `pods`, `isRolloutNeeded` returns `false` exactly when (i) every
running pod of the listing (a pod with a container status that is Running with a
non-zero start time) is in the desired state for `ac` and (ii) the listing has a
running pod or no agent is desired.  The right-hand side reads only the running
pods, so pods that are not running have no influence on the result. -/
theorem isRolloutNeeded_false_iff (env : RolloutEnv) (wl : Workload)
    (ac : Option agentconfig.Sidecar) (pods : List (Option core.Pod))
    (hlabels : wl.PodTemplateLabels.entries ≠ [])
    (hpods : env.Pods wl.Namespace wl.PodTemplateLabels = .ok pods) :
    isRolloutNeeded env wl ac = false ↔
      (∀ pod, some pod ∈ pods → PodIsRunning pod → PodInDesiredState env ac pod) ∧
      ((∃ pod, some pod ∈ pods ∧ PodIsRunning pod) ∨ ac = none) := by
  rw [isRolloutNeeded_false_iff_runningPods env wl ac pods hlabels hpods]
  have hne : runningPods pods ≠ [] ↔ ∃ pod, some pod ∈ pods ∧ PodIsRunning pod := by
    constructor
    · intro h
      obtain ⟨pod, hpod⟩ := List.exists_mem_of_ne_nil _ h
      exact ⟨pod, (mem_runningPods_iff pods pod).mp hpod⟩
    · rintro ⟨pod, hpod⟩ hnil
      have := (mem_runningPods_iff pods pod).mpr hpod
      rw [hnil] at this
      exact List.not_mem_nil _ this
  rw [hne]
  constructor
  · rintro ⟨h1, h2⟩
    refine ⟨?_, h2⟩
    intro pod hmem hrun
    exact (podMatchesConfig_iff env ac pod).mp
      (h1 pod ((mem_runningPods_iff pods pod).mpr ⟨hmem, hrun⟩))
  · rintro ⟨h1, h2⟩
    refine ⟨?_, h2⟩
    intro pod hpod
    obtain ⟨hmem, hrun⟩ := (mem_runningPods_iff pods pod).mp hpod
    exact (podMatchesConfig_iff env ac pod).mpr (h1 pod hmem hrun)

/-- C7 at a concrete input: the Deployment `web.demo` with a config that replaces
the container `app`, and a listing whose one running pod has the generated agent
container and the placeholder in place of `app`.  No rollout is needed, so the
running pod is in the desired state. -/
theorem isRolloutNeeded_false_iff_witness :
    isRolloutNeeded agentRolloutEnv demoDeployment (some replacingSidecar) = false ∧
    (∀ pod, some pod ∈ agentPods → PodIsRunning pod →
      PodInDesiredState agentRolloutEnv (some replacingSidecar) pod) ∧
    ((∃ pod, some pod ∈ agentPods ∧ PodIsRunning pod) ∨
      some replacingSidecar = (none : Option agentconfig.Sidecar)) :=
  ⟨by decide,
    (isRolloutNeeded_false_iff agentRolloutEnv demoDeployment (some replacingSidecar) agentPods
      (by decide) rfl).mp (by decide)⟩

theorem decodesToManual_false_iff (codec : Codec) (v : String) :
    decodesToManual codec v = false ↔
      ∀ scx, codec.UnmarshalYAML v = some scx → scx.Manual = false := by
  unfold decodesToManual
  cases codec.UnmarshalYAML v with
  | none => simp
  | some scx => simp

theorem index_ne_iff (docData : GoMap String) (k v : String) :
    docData.index k ≠ v ↔
      (docData.lookup k ≠ some v ∧ ¬ (docData.lookup k = none ∧ v = "")) := by
  unfold GoMap.index
  cases docData.lookup k with
  | none =>
    simp only [Option.getD_none, ne_eq, reduceCtorEq, not_false_eq_true, true_and]
    constructor
    · intro h hv
      exact h hv.symm
    · intro h hv
      exact h hv.symm
  | some w => simp

theorem overlayValue_eq_some_iff (codec : Codec) (docData pending : GoMap String)
    (k v : String) :
    overlayValue codec docData pending k = some v ↔ IsOverlaid codec docData pending k v := by
  unfold overlayValue IsOverlaid
  cases hp : pending.lookup k with
  | none => simp
  | some w =>
    by_cases hc : decodesToManual codec w = false ∧ docData.index k ≠ w
    · show (if decodesToManual codec w = false ∧ docData.index k ≠ w then some w else none)
        = some v ↔ _
      rw [if_pos hc]
      constructor
      · intro h
        have hwv : w = v := Option.some.inj h
        subst hwv
        exact ⟨rfl, (decodesToManual_false_iff codec w).mp hc.1,
          (index_ne_iff docData k w).mp hc.2⟩
      · intro h
        exact h.1
    · show (if decodesToManual codec w = false ∧ docData.index k ≠ w then some w else none)
        = some v ↔ _
      rw [if_neg hc]
      constructor
      · intro h
        exact Option.noConfusion h
      · rintro ⟨h1, h2, h3⟩
        have hwv : w = v := Option.some.inj h1
        subst hwv
        exact absurd ⟨(decodesToManual_false_iff codec w).mpr h2,
          (index_ne_iff docData k w).mpr h3⟩ hc

theorem overlay_sent (codec : Codec) (docData pending snap data : GoMap String)
    (h : ∀ k, data.lookup k =
      match overlayValue codec docData pending k with
      | some v => some v
      | none => snap.lookup k) :
    (∀ k v, IsOverlaid codec docData pending k v → data.lookup k = some v) ∧
    (∀ k, (∀ v, ¬ IsOverlaid codec docData pending k v) → data.lookup k = snap.lookup k) := by
  constructor
  · intro k v hv
    rw [h k, (overlayValue_eq_some_iff codec docData pending k v).mpr hv]
  · intro k hnone
    rw [h k]
    cases ho : overlayValue codec docData pending k with
    | none => rfl
    | some v => exact absurd ((overlayValue_eq_some_iff codec docData pending k v).mp ho) (hnone v)

theorem overlay_published (codec : Codec) (docData pending snap after : GoMap String)
    (addTo : List String)
    (h : ∀ k, after.lookup k =
      match overlayValue codec docData pending k with
      | some v => if k ∈ addTo then some v else snap.lookup k
      | none => snap.lookup k) :
    (∀ k v, IsOverlaid codec docData pending k v → k ∈ addTo → after.lookup k = some v) ∧
    (∀ k, ((∀ v, ¬ IsOverlaid codec docData pending k v) ∨ k ∉ addTo) →
      after.lookup k = snap.lookup k) := by
  constructor
  · intro k v hv hk
    rw [h k, (overlayValue_eq_some_iff codec docData pending k v).mpr hv]
    simp [hk]
  · intro k hor
    rw [h k]
    cases ho : overlayValue codec docData pending k with
    | none => rfl
    | some v =>
      rcases hor with hnone | hk
      · exact absurd ((overlayValue_eq_some_iff codec docData pending k v).mp ho) (hnone v)
      · simp [hk]

/-- C16. When the document get succeeds (`found`) or reports not-found,
`updateConfigMap` makes the get and exactly one `Update` (found) or `Create`
(not-found).  The data sent maps a key to its pending value when that value does not
decode to a `Manual` config and differs from the current value of the document for
the key, and to the value of the key in the snapshot of the namespace otherwise: a
pending value that is `Manual` or equal to the value in the document leaves the key
at its snapshot value.  The snapshot of the namespace afterwards holds the pending
value at the overlaid keys that are in `addToSnapshot` and is as before at every
other key, and the snapshots of other namespaces are as before. -/
theorem updateConfigMap_writes_snapshot_overlay (codec : Codec) (writeErr : Option String)
    (cw : configWatcher) (c : configUpdater) :
    (∀ docData, ∃ data,
      (c.updateConfigMap codec (.found docData) writeErr cw).calls =
        [.Get c.ns, .Update c.ns data] ∧
      (∀ k v, IsOverlaid codec docData c.Config k v → data.lookup k = some v) ∧
      (∀ k, (∀ v, ¬ IsOverlaid codec docData c.Config k v) →
        data.lookup k = ((cw.data.lookup c.ns).getD ∅).lookup k) ∧
      (∀ k v, IsOverlaid codec docData c.Config k v → k ∈ c.addToSnapshot →
        (((c.updateConfigMap codec (.found docData) writeErr cw).cw.data.lookup c.ns).getD
          ∅).lookup k = some v) ∧
      (∀ k, ((∀ v, ¬ IsOverlaid codec docData c.Config k v) ∨ k ∉ c.addToSnapshot) →
        (((c.updateConfigMap codec (.found docData) writeErr cw).cw.data.lookup c.ns).getD
          ∅).lookup k = ((cw.data.lookup c.ns).getD ∅).lookup k) ∧
      (∀ ns2, ns2 ≠ c.ns →
        (c.updateConfigMap codec (.found docData) writeErr cw).cw.data.lookup ns2 =
          cw.data.lookup ns2)) ∧
    (∃ data,
      (c.updateConfigMap codec .notFound writeErr cw).calls =
        [.Get c.ns, .Create c.ns data] ∧
      (∀ k v, IsOverlaid codec ∅ c.Config k v → data.lookup k = some v) ∧
      (∀ k, (∀ v, ¬ IsOverlaid codec ∅ c.Config k v) →
        data.lookup k = ((cw.data.lookup c.ns).getD ∅).lookup k) ∧
      (∀ k v, IsOverlaid codec ∅ c.Config k v → k ∈ c.addToSnapshot →
        (((c.updateConfigMap codec .notFound writeErr cw).cw.data.lookup c.ns).getD
          ∅).lookup k = some v) ∧
      (∀ k, ((∀ v, ¬ IsOverlaid codec ∅ c.Config k v) ∨ k ∉ c.addToSnapshot) →
        (((c.updateConfigMap codec .notFound writeErr cw).cw.data.lookup c.ns).getD
          ∅).lookup k = ((cw.data.lookup c.ns).getD ∅).lookup k) ∧
      (∀ ns2, ns2 ≠ c.ns →
        (c.updateConfigMap codec .notFound writeErr cw).cw.data.lookup ns2 =
          cw.data.lookup ns2)) := by
  obtain ⟨hfound, hnotFound⟩ := updateConfigMap_overlayValue codec writeErr cw c
  constructor
  · intro docData
    obtain ⟨data, hcalls, hsent, hsnap, hother⟩ := hfound docData
    obtain ⟨s1, s2⟩ := overlay_sent codec docData c.Config _ data hsent
    obtain ⟨p1, p2⟩ := overlay_published codec docData c.Config _ _ c.addToSnapshot hsnap
    exact ⟨data, hcalls, s1, s2, p1, p2, hother⟩
  · obtain ⟨data, hcalls, hsent, hsnap, hother⟩ := hnotFound
    obtain ⟨s1, s2⟩ := overlay_sent codec ∅ c.Config _ data hsent
    obtain ⟨p1, p2⟩ := overlay_published codec ∅ c.Config _ _ c.addToSnapshot hsnap
    exact ⟨data, hcalls, s1, s2, p1, p2, hother⟩

end Mutator
